import Mathlib

/-!
# Verification of the `cre` backtracking regular-expression engine

Shallow embedding of `src/cre/expression.py`: the evaluation context
(`EvaluationContext`), the capture table, and the five expression node
variants (`CharacterExpression`, `CharacterRangeExpression`,
`AnyOfOptionsExpression`, `GroupExpression`, `BackReferenceExpression`)
with their `matches` / `retry` / `undo` protocol.

Python's unbounded recursion is modelled with an explicit fuel
parameter; a run that exhausts its fuel yields `Res.spin`, and a Python
exception (IndexError / KeyError / TypeError) yields `Res.err`.
Machine state is passed explicitly: each operation consumes an
expression node (carrying its private `_matches` attempt stack) and a
context, and returns the updated node and context.
-/

set_option maxRecDepth 100000
set_option maxHeartbeats 4000000

/-- Result of running a fragment of the engine: a value, a Python
exception (IndexError / KeyError / TypeError), or fuel exhaustion
(the Python code would still be running). -/
inductive Res (α : Type) where
  | ok (a : α)
  | err
  | spin
deriving DecidableEq, Repr

namespace Res

def bind : Res α → (α → Res β) → Res β
  | ok a, f => f a
  | err, _ => err
  | spin, _ => spin

instance : Monad Res where
  pure := Res.ok
  bind := Res.bind

end Res

/-- A capture identifier: Python uses both positional integers and
user-chosen strings as keys of the capture dictionary. -/
inductive Ident where
  | num (n : Nat)
  | str (s : String)
deriving DecidableEq, Repr

/-- A match span, the dict `{"start": .., "end": .., ["matching_child": ..]}`
produced by `_matches_once`.  `matchingChild` is `none` when the dict has
no `"matching_child"` key; reading it then is a Python `KeyError`
(modelled as `Res.err` at the use site). -/
structure Span where
  start : Nat
  stop : Nat
  matchingChild : Option Nat := none
deriving DecidableEq, Repr

/-- `__copykeys(d, ("start", "end"))` — the value pushed into the
capture table. -/
def copySE (sp : Span) : Span := ⟨sp.start, sp.stop, none⟩

/-- The capture table `EvaluationContext._matches`: an insertion-ordered
mapping from identifier to a stack of spans (top of stack = last). -/
abbrev Table := List (Ident × List Span)

def tlookup : Table → Ident → Option (List Span)
  | [], _ => none
  | (k, v) :: t, n => if k = n then some v else tlookup t n

def tset : Table → Ident → List Span → Table
  | [], _, _ => []
  | (k, v) :: t, n, l => if k = n then (k, l) :: t else (k, v) :: tset t n l

def terase : Table → Ident → Table
  | [], _ => []
  | (k, v) :: t, n => if k = n then t else (k, v) :: terase t n

/-- `EvaluationContext.push_match` for a single name:
`self._matches.setdefault(n, []).append(value)`. -/
def pushMatch1 (t : Table) (n : Ident) (v : Span) : Table :=
  match tlookup t n with
  | some l => tset t n (l ++ [v])
  | none => t ++ [(n, [v])]

/-- `EvaluationContext.push_match(names, value)`. -/
def pushMatch (t : Table) (ns : List Ident) (v : Span) : Table :=
  ns.foldl (fun t n => pushMatch1 t n v) t

/-- `EvaluationContext.override_match` for one name:
`self._matches[n][-1] = value`; `KeyError` when the name is absent. -/
def overrideMatch1 (t : Table) (n : Ident) (v : Span) : Res Table :=
  match tlookup t n with
  | none => .err
  | some [] => .err
  | some l => .ok (tset t n (l.dropLast ++ [v]))

def overrideMatch (t : Table) (ns : List Ident) (v : Span) : Res Table :=
  match ns with
  | [] => .ok t
  | n :: ns' => (overrideMatch1 t n v).bind fun t' => overrideMatch t' ns' v

/-- `EvaluationContext.pop_match` for one name: `self._matches[n].pop()`,
deleting the key when its stack becomes empty; `KeyError` when absent. -/
def popMatch1 (t : Table) (n : Ident) : Res Table :=
  match tlookup t n with
  | none => .err
  | some [] => .err
  | some l =>
    let l' := l.dropLast
    .ok (if l'.isEmpty then terase t n else tset t n l')

def popMatch (t : Table) (ns : List Ident) : Res Table :=
  match ns with
  | [] => .ok t
  | n :: ns' => (popMatch1 t n).bind fun t' => popMatch t' ns'

/-- `EvaluationContext`: subject, parsing progress (cursor) and the
capture table. -/
structure Ctx where
  progress : Nat
  subject : List Char
  table : Table
deriving DecidableEq, Repr

/-- `subject[span.start:span.stop]`, with Python slice clamping. -/
def sliceSpan (subject : List Char) (sp : Span) : List Char :=
  (subject.drop sp.start).take (sp.stop - sp.start)

/-- The variant-specific part of an expression node. -/
inductive EKind where
  | char (c : Char)
  | range (lo hi : Char)
  | anyOf
  | group
  | backref (r : Ident)
deriving DecidableEq, Repr

/-- An expression node: the repetition parameters (`maxRep = none`
models `float("inf")`), greediness, optional capture names, the
variant, the child nodes, and the node's mutable attempt stack
`self._matches` (a `none` list element models a Python `None` stored
in an attempt, as appended by the greedy restore loop of
`AbstractIteratorExpression.retry`). -/
inductive Expr where
  | node (minRep : Nat) (maxRep : Option Nat) (greedy : Bool)
      (names : Option (List Ident)) (kind : EKind)
      (children : List Expr)
      (mstack : List (List (Option Span)))

def Expr.minRep : Expr → Nat
  | .node m _ _ _ _ _ _ => m

def Expr.maxRep : Expr → Option Nat
  | .node _ x _ _ _ _ _ => x

def Expr.greedy : Expr → Bool
  | .node _ _ g _ _ _ _ => g

def Expr.names : Expr → Option (List Ident)
  | .node _ _ _ n _ _ _ => n

def Expr.kind : Expr → EKind
  | .node _ _ _ _ k _ _ => k

def Expr.children : Expr → List Expr
  | .node _ _ _ _ _ cs _ => cs

def Expr.mstack : Expr → List (List (Option Span))
  | .node _ _ _ _ _ _ ms => ms

/-- Replace the mutable state (children and attempt stack) of a node. -/
def Expr.setState : Expr → List Expr → List (List (Option Span)) → Expr
  | .node m x g n k _ _, cs, ms => .node m x g n k cs ms

/-- `len(n) < limit` where `limit` may be `float("inf")` (`none`). -/
def ltLimit (n : Nat) : Option Nat → Bool
  | none => true
  | some l => n < l

/-- `n == limit` where `limit` may be `float("inf")` (`none`);
a finite int never equals `inf`. -/
def eqLimit (n : Nat) : Option Nat → Bool
  | none => false
  | some l => n = l

/-- `Expression.has_current_repetition`:
`len(self._matches) and len(self._current_match)`. -/
def Expr.hasCurrentRep (e : Expr) : Bool :=
  match e.mstack.getLast? with
  | some att => !att.isEmpty
  | none => false

/-- `self._current_repetition` followed by a key access: IndexError on
an empty stack or attempt, TypeError when the stored entry is `None`. -/
def Expr.currentRepSpan (e : Expr) : Res Span :=
  match e.mstack.getLast? with
  | none => .err
  | some att =>
    match att.getLast? with
    | none => .err
    | some none => .err
    | some (some sp) => .ok sp

/-- Dict-key access on an attempt entry (`entry["start"]` etc.):
a stored Python `None` raises TypeError. -/
def espan : Option Span → Res Span
  | some sp => .ok sp
  | none => .err

/-- `EvaluationContext.get_match_string(group)`:
`self.matches[group][-1]` (KeyError / IndexError when absent) then the
corresponding substring of the subject. -/
def getMatchString (ctx : Ctx) (r : Ident) : Res (List Char) :=
  match tlookup ctx.table r with
  | none => .err
  | some l =>
    match l.getLast? with
    | none => .err
    | some sp => .ok (sliceSpan ctx.subject sp)

/-- Default span bounds used by `AnyOfOptionsExpression`'s backtracking:
take the child's current repetition bounds when it has one, otherwise
keep the supplied defaults (expression.py lines 395-397, 406-408). -/
def repBounds (c : Expr) (s e : Nat) : Res (Nat × Nat) :=
  if c.hasCurrentRep then
    match c.currentRepSpan with
    | .ok sp => .ok (sp.start, sp.stop)
    | .err => .err
    | .spin => .spin
  else .ok (s, e)

/-- `GroupExpression._matches_once` span end: fold `end = rep["end"]`
over children with a current repetition (lines 456-458). -/
def groupEnd : List Expr → Nat → Res Nat
  | [], e => .ok e
  | c :: cs, e =>
    if c.hasCurrentRep then
      match c.currentRepSpan with
      | .ok sp => groupEnd cs sp.stop
      | .err => .err
      | .spin => .spin
    else groupEnd cs e

/-- `GroupExpression._reevaluate_previous_repetition` span bounds:
`start` is the least child repetition start below the cursor default,
`end` the last child repetition end (lines 520-525). -/
def groupBounds : List Expr → Nat → Nat → Res (Nat × Nat)
  | [], s, e => .ok (s, e)
  | c :: cs, s, e =>
    if c.hasCurrentRep then
      match c.currentRepSpan with
      | .ok sp => groupBounds cs (if sp.start < s then sp.start else s) sp.stop
      | .err => .err
      | .spin => .spin
    else groupBounds cs s e

/-- The call shapes of the engine: one constructor per (mutually
recursive) operation of `expression.py`.  The mutual recursion of the
Python methods is modelled by a single fuel-indexed interpreter
`engine` dispatching on this type, so that every recursive call costs
one unit of fuel. -/
inductive Call where
  | monce (k : EKind) (cs : List Expr) (ctx : Ctx)
  | anyOnce (start i : Nat) (cs : List Expr) (ctx : Ctx)
  | mone (i : Nat) (cs : List Expr) (ctx : Ctx)
  | mdown (i : Nat) (cs : List Expr) (ctx : Ctx)
  | rone (i : Nat) (cs : List Expr) (ctx : Ctx)
  | rup (i : Nat) (cs : List Expr) (ctx : Ctx)
  | reev (k : EKind) (att : List (Option Span)) (cs : List Expr) (ctx : Ctx)
  | anyReev (att : List (Option Span)) (cs : List Expr) (ctx : Ctx)
  | anyScan (i s en : Nat) (att : List (Option Span)) (cs : List Expr) (ctx : Ctx)
  | grpReev (att : List (Option Span)) (cs : List Expr) (ctx : Ctx)
  | grpLoop (att : List (Option Span)) (cs : List Expr) (ctx : Ctx)
  | ifill (k : EKind) (upper : Option Nat) (att : List (Option Span)) (cs : List Expr) (ctx : Ctx)
  | iloop (k : EKind) (minRep : Nat) (upper : Option Nat) (att : List (Option Span))
      (cs : List Expr) (ctx : Ctx)
  | lfill (k : EKind) (upper : Option Nat) (att : List (Option Span)) (ctx : Ctx)
  | lretry (minRep : Nat) (maxRep : Option Nat) (greedy : Bool) (k : EKind)
      (att : List (Option Span)) (ctx : Ctx)
  | iretry (minRep : Nat) (maxRep : Option Nat) (greedy : Bool) (k : EKind)
      (att : List (Option Span)) (cs : List Expr) (ctx : Ctx)
  | iretryTail (minRep : Nat) (maxRep : Option Nat) (greedy : Bool) (k : EKind)
      (initial : Nat) (att : List (Option Span)) (cs : List Expr) (ctx : Ctx)
  | gres (k : EKind) (n : Nat) (att : List (Option Span)) (cs : List Expr) (ctx : Ctx)
  | ngres (k : EKind) (n : Nat) (att : List (Option Span)) (cs : List Expr) (ctx : Ctx)
  | mfn (e : Expr) (ctx : Ctx)
  | mtch (e : Expr) (ctx : Ctx)
  | rfn (e : Expr) (att0 : List (Option Span)) (ctx : Ctx)
  | rtry (e : Expr) (ctx : Ctx)
  | undC (k : EKind) (names : Option (List Ident)) (att : List (Option Span))
      (cs : List Expr) (ctx : Ctx)
  | und (e : Expr) (ctx : Ctx)
  | anyUndo (ms : List (Option Span)) (cs : List Expr) (ctx : Ctx)
  | gUndoReps (n : Nat) (cs : List Expr) (ctx : Ctx)
  | undoRev (i : Nat) (cs : List Expr) (ctx : Ctx)

/-- The return values of the engine's operations. -/
inductive Out where
  | once (o : Option Span) (cs : List Expr) (ctx : Ctx)
  | bcc (b : Bool) (cs : List Expr) (ctx : Ctx)
  | bac (b : Bool) (att : List (Option Span)) (cs : List Expr) (ctx : Ctx)
  | fill (att : List (Option Span)) (cs : List Expr) (ctx : Ctx)
  | lfl (att : List (Option Span)) (ctx : Ctx)
  | lrt (b : Bool) (att : List (Option Span)) (ctx : Ctx)
  | bec (b : Bool) (e : Expr) (ctx : Ctx)
  | ec (e : Expr) (ctx : Ctx)
  | cc (cs : List Expr) (ctx : Ctx)

/-- Extract a `_matches_once` result; any other variant cannot occur. -/
def asOnce : Res Out → Res (Option Span × List Expr × Ctx)
  | .ok (.once o cs ctx) => .ok (o, cs, ctx)
  | .ok _ => .err
  | .err => .err
  | .spin => .spin

def asBCC : Res Out → Res (Bool × List Expr × Ctx)
  | .ok (.bcc b cs ctx) => .ok (b, cs, ctx)
  | .ok _ => .err
  | .err => .err
  | .spin => .spin

def asBAC : Res Out → Res (Bool × List (Option Span) × List Expr × Ctx)
  | .ok (.bac b att cs ctx) => .ok (b, att, cs, ctx)
  | .ok _ => .err
  | .err => .err
  | .spin => .spin

def asFill : Res Out → Res (List (Option Span) × List Expr × Ctx)
  | .ok (.fill att cs ctx) => .ok (att, cs, ctx)
  | .ok _ => .err
  | .err => .err
  | .spin => .spin

def asLFill : Res Out → Res (List (Option Span) × Ctx)
  | .ok (.lfl att ctx) => .ok (att, ctx)
  | .ok _ => .err
  | .err => .err
  | .spin => .spin

def asLRet : Res Out → Res (Bool × List (Option Span) × Ctx)
  | .ok (.lrt b att ctx) => .ok (b, att, ctx)
  | .ok _ => .err
  | .err => .err
  | .spin => .spin

def asBEC : Res Out → Res (Bool × Expr × Ctx)
  | .ok (.bec b e ctx) => .ok (b, e, ctx)
  | .ok _ => .err
  | .err => .err
  | .spin => .spin

def asEC : Res Out → Res (Expr × Ctx)
  | .ok (.ec e ctx) => .ok (e, ctx)
  | .ok _ => .err
  | .err => .err
  | .spin => .spin

def asCC : Res Out → Res (List Expr × Ctx)
  | .ok (.cc cs ctx) => .ok (cs, ctx)
  | .ok _ => .err
  | .err => .err
  | .spin => .spin

/-- The engine: a fuel-indexed interpreter for the mutually recursive
operations of `expression.py`.  Each constructor of `Call` corresponds
to one Python method or inner loop (named wrappers below give each its
own definition); each recursive invocation costs one unit of fuel. -/
def engine : Nat → Call → Res Out
  | 0, _ => .spin
  | fuel+1, c =>
    match c with
    -- `_matches_once(context)` dispatched on the node variant
    -- (`CharacterExpression` line 269, `CharacterRangeExpression`
    -- line 291, `AnyOfOptionsExpression` line 374, `GroupExpression`
    -- line 426, `BackReferenceExpression` line 549).
    | .monce (.char ch0) cs ctx =>
      match ctx.subject[ctx.progress]? with
      | none => .err
      | some ch =>
        .ok (.once (if ch = ch0 then some ⟨ctx.progress, ctx.progress + 1, none⟩ else none)
          cs ctx)
    | .monce (.range lo hi) cs ctx =>
      match ctx.subject[ctx.progress]? with
      | none => .err
      | some ch =>
        .ok (.once (if lo ≤ ch ∧ ch ≤ hi then some ⟨ctx.progress, ctx.progress + 1, none⟩
          else none) cs ctx)
    | .monce (.backref r) cs ctx =>
      match getMatchString ctx r with
      | .err => .err
      | .spin => .spin
      | .ok pat =>
        .ok (.once (if pat.isPrefixOf (ctx.subject.drop ctx.progress)
          then some ⟨ctx.progress, ctx.progress + pat.length, none⟩ else none) cs ctx)
    | .monce .anyOf cs ctx => engine fuel (.anyOnce ctx.progress 0 cs ctx)
    | .monce .group cs ctx =>
      let start := ctx.progress
      match asBCC (engine fuel (.mone 0 cs ctx)) with
      | .err => .err
      | .spin => .spin
      | .ok (false, cs', ctx') => .ok (.once none cs' ctx')
      | .ok (true, cs', ctx') =>
        match groupEnd cs' start with
        | .err => .err
        | .spin => .spin
        | .ok en => .ok (.once (some ⟨start, en, none⟩) cs' ctx')
    -- the loop of `AnyOfOptionsExpression._matches_once` (lines 376-382)
    | .anyOnce start i cs ctx =>
      match cs[i]? with
      | none => .ok (.once none cs ctx)
      | some child =>
        match asBEC (engine fuel (.mtch child ctx)) with
        | .err => .err
        | .spin => .spin
        | .ok (true, c', ctx') =>
          .ok (.once (some ⟨start, ctx'.progress, some i⟩) (cs.set i c') ctx')
        | .ok (false, c', ctx') => engine fuel (.anyOnce start (i + 1) (cs.set i c') ctx')
    -- `GroupExpression._matches_once.__match_one_child` (lines 439-452)
    | .mone i cs ctx =>
      match cs[i]? with
      | none => .ok (.bcc true cs ctx)
      | some child =>
        match asBEC (engine fuel (.mtch child ctx)) with
        | .err => .err
        | .spin => .spin
        | .ok (false, c', ctx') => .ok (.bcc false (cs.set i c') ctx')
        | .ok (true, c', ctx') => engine fuel (.mdown i (cs.set i c') ctx')
    -- the `while not __match_one_child(child + 1)` loop (lines 448-451)
    | .mdown i cs ctx =>
      match asBCC (engine fuel (.mone (i + 1) cs ctx)) with
      | .err => .err
      | .spin => .spin
      | .ok (true, cs', ctx') => .ok (.bcc true cs' ctx')
      | .ok (false, cs', ctx') =>
        match cs'[i]? with
        | none => .err
        | some child =>
          match asBEC (engine fuel (.rtry child ctx')) with
          | .err => .err
          | .spin => .spin
          | .ok (false, c', ctx'') => .ok (.bcc false (cs'.set i c') ctx'')
          | .ok (true, c', ctx'') => engine fuel (.mdown i (cs'.set i c') ctx'')
    -- `__retry_one_child` (lines 504-513) for an index `i ≥ 0`; the
    -- Python call with index `-1` returns `False` and is inlined at
    -- the call sites
    | .rone i cs ctx =>
      match cs[i]? with
      | none => .err
      | some child =>
        match asBEC (engine fuel (.rtry child ctx)) with
        | .err => .err
        | .spin => .spin
        | .ok (true, c', ctx') => .ok (.bcc true (cs.set i c') ctx')
        | .ok (false, c', ctx') =>
          if i = 0 then .ok (.bcc false (cs.set i c') ctx')
          else engine fuel (.rup i (cs.set i c') ctx')
    -- the `while __retry_one_child(child - 1)` loop (lines 510-512)
    | .rup i cs ctx =>
      match asBCC (engine fuel (.rone (i - 1) cs ctx)) with
      | .err => .err
      | .spin => .spin
      | .ok (false, cs', ctx') => .ok (.bcc false cs' ctx')
      | .ok (true, cs', ctx') =>
        match cs'[i]? with
        | none => .err
        | some child =>
          match asBEC (engine fuel (.mtch child ctx')) with
          | .err => .err
          | .spin => .spin
          | .ok (true, c', ctx'') => .ok (.bcc true (cs'.set i c') ctx'')
          | .ok (false, c', ctx'') => engine fuel (.rup i (cs'.set i c') ctx'')
    -- `_reevaluate_previous_repetition`, defined only on the two
    -- composite variants
    | .reev .anyOf att cs ctx => engine fuel (.anyReev att cs ctx)
    | .reev .group att cs ctx => engine fuel (.grpReev att cs ctx)
    | .reev _ _ _ _ => .err
    -- `AnyOfOptionsExpression._reevaluate_previous_repetition`
    -- (lines 384-399).  Faithful to the source: the last repetition is
    -- popped *before* `matching_child` is read, so the child index is
    -- taken from the entry below the popped one, and the read raises
    -- IndexError when the popped repetition was the only one.
    | .anyReev att cs ctx =>
      if att.isEmpty then .ok (.bac false att cs ctx)
      else
        let att' := att.dropLast
        match att'.getLast? with
        | none => .err
        | some o =>
          match espan o with
          | .err => .err
          | .spin => .spin
          | .ok e0 =>
            match e0.matchingChild with
            | none => .err
            | some idx =>
              match cs[idx]? with
              | none => .err
              | some child =>
                let s := ctx.progress
                match asBEC (engine fuel (.rtry child ctx)) with
                | .err => .err
                | .spin => .spin
                | .ok (true, c', ctx') =>
                  match repBounds c' s s with
                  | .err => .err
                  | .spin => .spin
                  | .ok (s', e') =>
                    .ok (.bac true (att' ++ [some ⟨s', e', none⟩]) (cs.set idx c') ctx')
                | .ok (false, c', ctx') =>
                  engine fuel (.anyScan (idx + 1) s s att' (cs.set idx c') ctx')
    -- the `while True` / `for i in range(start_child_iteration, ...)`
    -- search (lines 401-413), threading the leaked `start`/`end`
    | .anyScan i s en att cs ctx =>
      match cs[i]? with
      | some child =>
        match asBEC (engine fuel (.mtch child ctx)) with
        | .err => .err
        | .spin => .spin
        | .ok (true, c', ctx') =>
          match repBounds c' s en with
          | .err => .err
          | .spin => .spin
          | .ok (s', e') =>
            .ok (.bac true (att ++ [some ⟨s', e', none⟩]) (cs.set i c') ctx')
        | .ok (false, c', ctx') => engine fuel (.anyScan (i + 1) s en att (cs.set i c') ctx')
      | none =>
        match asBAC (engine fuel (.anyReev att cs ctx)) with
        | .err => .err
        | .spin => .spin
        | .ok (false, att', cs', ctx') => .ok (.bac false att' cs' ctx')
        | .ok (true, att', cs', ctx') => engine fuel (.anyScan 0 s en att' cs' ctx')
    -- `GroupExpression._reevaluate_previous_repetition` (lines 515-527)
    | .grpReev att cs ctx =>
      if att.isEmpty then .ok (.bac false att cs ctx)
      else
        let att' := att.dropLast
        match (if cs.isEmpty then (.ok (false, cs, ctx) : Res (Bool × List Expr × Ctx))
               else asBCC (engine fuel (.rone (cs.length - 1) cs ctx))) with
        | .err => .err
        | .spin => .spin
        | .ok (true, cs', ctx') =>
          match groupBounds cs' ctx'.progress ctx'.progress with
          | .err => .err
          | .spin => .spin
          | .ok (s, e) => .ok (.bac true (att' ++ [some ⟨s, e, none⟩]) cs' ctx')
        | .ok (false, cs', ctx') => engine fuel (.grpLoop att' cs' ctx')
    -- the `while self._reevaluate_previous_repetition(context)` loop
    -- (lines 529-534)
    | .grpLoop att cs ctx =>
      match asBAC (engine fuel (.grpReev att cs ctx)) with
      | .err => .err
      | .spin => .spin
      | .ok (false, att', cs', ctx') => .ok (.bac false att' cs' ctx')
      | .ok (true, att', cs', ctx') =>
        match asOnce (engine fuel (.monce .group cs' ctx')) with
        | .err => .err
        | .spin => .spin
        | .ok (some r, cs'', ctx'') => .ok (.bac true (att' ++ [some r]) cs'' ctx'')
        | .ok (none, cs'', ctx'') => engine fuel (.grpLoop att' cs'' ctx'')
    -- the inner fill loop of `AbstractIteratorExpression.matches`
    -- (lines 317-321); the children advance the cursor
    | .ifill k upper att cs ctx =>
      if ltLimit att.length upper then
        match asOnce (engine fuel (.monce k cs ctx)) with
        | .err => .err
        | .spin => .spin
        | .ok (none, cs', ctx') => .ok (.fill att cs' ctx')
        | .ok (some m, cs', ctx') => engine fuel (.ifill k upper (att ++ [some m]) cs' ctx')
      else .ok (.fill att cs ctx)
    -- the `while True` loop of `AbstractIteratorExpression.matches`
    -- (lines 316-325)
    | .iloop k minRep upper att cs ctx =>
      match asFill (engine fuel (.ifill k upper att cs ctx)) with
      | .err => .err
      | .spin => .spin
      | .ok (att', cs', ctx') =>
        if minRep ≤ att'.length then .ok (.bac true att' cs' ctx')
        else
          match asBAC (engine fuel (.reev k att' cs' ctx')) with
          | .err => .err
          | .spin => .spin
          | .ok (false, att'', cs'', ctx'') => .ok (.bac false att'' cs'' ctx'')
          | .ok (true, att'', cs'', ctx'') => engine fuel (.iloop k minRep upper att'' cs'' ctx'')
    -- the repetition loop of the generic `Expression.matches`
    -- (lines 160-166): stop at the end of the subject or at
    -- `upper_limit`, invoke `_matches_once`, append the span, advance
    -- the cursor to its end
    | .lfill k upper att ctx =>
      if ctx.progress < ctx.subject.length ∧ ltLimit att.length upper then
        match asOnce (engine fuel (.monce k [] ctx)) with
        | .err => .err
        | .spin => .spin
        | .ok (none, _, ctx') => .ok (.lfl att ctx')
        | .ok (some m, _, ctx') =>
          engine fuel (.lfill k upper (att ++ [some m]) {ctx' with progress := m.stop})
      else .ok (.lfl att ctx)
    -- the body of the generic `Expression.retry` (lines 192-205)
    | .lretry minRep maxRep greedy k att ctx =>
      if eqLimit att.length (if greedy then some minRep else maxRep) then
        .ok (.lrt false att ctx)
      else if greedy then
        match att.getLast? with
        | none => .err
        | some o =>
          match espan o with
          | .err => .err
          | .spin => .spin
          | .ok sp => .ok (.lrt true att.dropLast {ctx with progress := sp.start})
      else
        match asOnce (engine fuel (.monce k [] ctx)) with
        | .err => .err
        | .spin => .spin
        | .ok (none, _, ctx') => .ok (.lrt false att ctx')
        | .ok (some m, _, ctx') => .ok (.lrt true (att ++ [some m]) {ctx' with progress := m.stop})
    -- the body of `AbstractIteratorExpression.retry` (lines 328-354)
    | .iretry minRep maxRep greedy k att cs ctx =>
      let initial := att.length
      if initial = 0 then
        if greedy then .ok (.bac false att cs ctx)
        else engine fuel (.iretryTail minRep maxRep greedy k initial att cs ctx)
      else
        match asBAC (engine fuel (.reev k att cs ctx)) with
        | .err => .err
        | .spin => .spin
        | .ok (true, att', cs', ctx') => .ok (.bac true att' cs' ctx')
        | .ok (false, att', cs', ctx') =>
          engine fuel (.iretryTail minRep maxRep greedy k initial att' cs' ctx')
    -- the tail of `AbstractIteratorExpression.retry` (lines 337-354):
    -- the repetition-limit test on the *initial* repetition count,
    -- then the restore loops
    | .iretryTail minRep maxRep greedy k initial att cs ctx =>
      if eqLimit initial (if greedy then some minRep else maxRep) then
        .ok (.bac false att cs ctx)
      else if greedy then engine fuel (.gres k (initial - 1) att cs ctx)
      else engine fuel (.ngres k (initial + 1) att cs ctx)
    -- the greedy restore loop (lines 345-347): the raw `_matches_once`
    -- result is appended, a `None` result included
    | .gres _ 0 att cs ctx => .ok (.bac true att cs ctx)
    | .gres k (n+1) att cs ctx =>
      match asOnce (engine fuel (.monce k cs ctx)) with
      | .err => .err
      | .spin => .spin
      | .ok (o, cs', ctx') => engine fuel (.gres k n (att ++ [o]) cs' ctx')
    -- the non-greedy restore loop (lines 348-354)
    | .ngres _ 0 att cs ctx => .ok (.bac true att cs ctx)
    | .ngres k (n+1) att cs ctx =>
      match asOnce (engine fuel (.monce k cs ctx)) with
      | .err => .err
      | .spin => .spin
      | .ok (none, cs', ctx') => .ok (.bac false att cs' ctx')
      | .ok (some m, cs', ctx') => engine fuel (.ngres k n (att ++ [some m]) cs' ctx')
    -- the body of `matches` before the `synchronize_context` wrapper:
    -- the generic `Expression.matches` loop (lines 147-168) for the
    -- three leaf variants, `AbstractIteratorExpression.matches`
    -- (lines 308-325) for the composites
    | .mfn e ctx =>
      let upper := if e.greedy then e.maxRep else some e.minRep
      match e.kind with
      | .anyOf => engine fuel (.iloop .anyOf e.minRep upper [] e.children ctx)
      | .group => engine fuel (.iloop .group e.minRep upper [] e.children ctx)
      | k =>
        match asLFill (engine fuel (.lfill k upper [] ctx)) with
        | .err => .err
        | .spin => .spin
        | .ok (att, ctx') => .ok (.bac (decide (e.minRep ≤ att.length)) att e.children ctx')
    -- `matches(context)`: the body wrapped by
    -- `synchronize_context.wrap_matches` (lines 18-27)
    | .mtch e ctx =>
      match asBAC (engine fuel (.mfn e ctx)) with
      | .err => .err
      | .spin => .spin
      | .ok (true, att, cs', ctx') =>
        let e' := e.setState cs' (e.mstack ++ [att])
        match e.names with
        | none => .ok (.bec true e' ctx')
        | some ns =>
          if e'.hasCurrentRep then
            match e'.currentRepSpan with
            | .err => .err
            | .spin => .spin
            | .ok sp =>
              .ok (.bec true e' {ctx' with table := pushMatch ctx'.table ns (copySE sp)})
          else .ok (.bec true e' ctx')
      | .ok (false, att, cs', ctx') =>
        let e' := e.setState cs' e.mstack
        match att.head? with
        | none => .ok (.bec false e' ctx')
        | some o =>
          match espan o with
          | .err => .err
          | .spin => .spin
          | .ok sp => .ok (.bec false e' {ctx' with progress := sp.start})
    -- the body of `retry` before the `synchronize_context` wrapper:
    -- the generic `Expression.retry` (lines 170-205) for the three
    -- leaf variants, `AbstractIteratorExpression.retry`
    -- (lines 327-354) for the composites, acting on the current
    -- attempt `att0`
    | .rfn e att0 ctx =>
      match e.kind with
      | .anyOf => engine fuel (.iretry e.minRep e.maxRep e.greedy .anyOf att0 e.children ctx)
      | .group => engine fuel (.iretry e.minRep e.maxRep e.greedy .group att0 e.children ctx)
      | k =>
        match asLRet (engine fuel (.lretry e.minRep e.maxRep e.greedy k att0 ctx)) with
        | .err => .err
        | .spin => .spin
        | .ok (b, att', ctx') => .ok (.bac b att' e.children ctx')
    -- `retry(context)`: the body wrapped by
    -- `synchronize_context.wrap_retry` (lines 29-36)
    | .rtry e ctx =>
      match e.mstack.getLast? with
      | none => .err
      | some att0 =>
        let rest := e.mstack.dropLast
        match asBAC (engine fuel (.rfn e att0 ctx)) with
        | .err => .err
        | .spin => .spin
        | .ok (true, att', cs', ctx') =>
          let e' := e.setState cs' (rest ++ [att'])
          match e.names with
          | none => .ok (.bec true e' ctx')
          | some ns =>
            if e'.hasCurrentRep then
              match e'.currentRepSpan with
              | .err => .err
              | .spin => .spin
              | .ok sp =>
                match overrideMatch ctx'.table ns (copySE sp) with
                | .err => .err
                | .spin => .spin
                | .ok t' => .ok (.bec true e' {ctx' with table := t'})
            else .ok (.bec true e' ctx')
        | .ok (false, att', cs', ctx') =>
          match asCC (engine fuel (.undC e.kind e.names att' cs' ctx')) with
          | .err => .err
          | .spin => .spin
          | .ok (cs'', ctx'') => .ok (.bec false (e.setState cs'' rest) ctx'')
    -- the shared work of `undo` on a given current attempt: the
    -- variant-specific child undo pass, then the cursor rewind to the
    -- first repetition's start, then the capture pop (lines 207-213)
    | .undC k names att cs ctx =>
      match (match k with
             | .anyOf => asCC (engine fuel (.anyUndo att.reverse cs ctx))
             | .group => asCC (engine fuel (.gUndoReps att.length cs ctx))
             | _ => (.ok (cs, ctx) : Res (List Expr × Ctx))) with
      | .err => .err
      | .spin => .spin
      | .ok (cs', ctx') =>
        match (match att.head? with
               | none => (.ok ctx' : Res Ctx)
               | some o =>
                 match espan o with
                 | .err => .err
                 | .spin => .spin
                 | .ok sp => .ok {ctx' with progress := sp.start}) with
        | .err => .err
        | .spin => .spin
        | .ok c2 =>
          match names with
          | none => .ok (.cc cs' c2)
          | some ns =>
            match popMatch c2.table ns with
            | .err => .err
            | .spin => .spin
            | .ok t' => .ok (.cc cs' {c2 with table := t'})
    -- `undo(context)` (lines 207-213 with the overrides of
    -- `AnyOfOptionsExpression` lines 368-372 and `GroupExpression`
    -- lines 419-424)
    | .und e ctx =>
      match e.mstack.getLast? with
      | none => .err
      | some att =>
        match asCC (engine fuel (.undC e.kind e.names att e.children ctx)) with
        | .err => .err
        | .spin => .spin
        | .ok (cs', ctx') => .ok (.ec (e.setState cs' e.mstack.dropLast) ctx')
    -- `AnyOfOptionsExpression.undo` child pass (lines 370-371): undo
    -- the matching child of each repetition, most recent first
    | .anyUndo [] cs ctx => .ok (.cc cs ctx)
    | .anyUndo (o :: ms) cs ctx =>
      match espan o with
      | .err => .err
      | .spin => .spin
      | .ok sp =>
        match sp.matchingChild with
        | none => .err
        | some idx =>
          match cs[idx]? with
          | none => .err
          | some child =>
            match asEC (engine fuel (.und child ctx)) with
            | .err => .err
            | .spin => .spin
            | .ok (c', ctx') => engine fuel (.anyUndo ms (cs.set idx c') ctx')
    -- `GroupExpression.undo` outer loop (lines 421-423): once per
    -- repetition entry, undo every child in reverse order
    | .gUndoReps 0 cs ctx => .ok (.cc cs ctx)
    | .gUndoReps (n+1) cs ctx =>
      match asCC (engine fuel (.undoRev cs.length cs ctx)) with
      | .err => .err
      | .spin => .spin
      | .ok (cs', ctx') => engine fuel (.gUndoReps n cs' ctx')
    -- undo children at indices `i-1, …, 0` (the
    -- `for c in reversed(self._children)` loop, line 422)
    | .undoRev 0 cs ctx => .ok (.cc cs ctx)
    | .undoRev (i+1) cs ctx =>
      match cs[i]? with
      | none => .err
      | some child =>
        match asEC (engine fuel (.und child ctx)) with
        | .err => .err
        | .spin => .spin
        | .ok (c', ctx') => engine fuel (.undoRev i (cs.set i c') ctx')
termination_by structural fuel => fuel

/-- `_matches_once(context)` of the node variant `k`
(`CharacterExpression._matches_once`, `CharacterRangeExpression._matches_once`,
`AnyOfOptionsExpression._matches_once`, `GroupExpression._matches_once`,
`BackReferenceExpression._matches_once`). -/
def matchesOnceE (fuel : Nat) (k : EKind) (cs : List Expr) (ctx : Ctx) :
    Res (Option Span × List Expr × Ctx) :=
  asOnce (engine fuel (.monce k cs ctx))

/-- The repetition loop of the generic `Expression.matches` (lines 160-166). -/
def leafFillE (fuel : Nat) (k : EKind) (upper : Option Nat) (att : List (Option Span))
    (ctx : Ctx) : Res (List (Option Span) × Ctx) :=
  asLFill (engine fuel (.lfill k upper att ctx))

/-- The `while True` loop of `AbstractIteratorExpression.matches` (lines 316-325). -/
def iterLoopE (fuel : Nat) (k : EKind) (minRep : Nat) (upper : Option Nat)
    (att : List (Option Span)) (cs : List Expr) (ctx : Ctx) :
    Res (Bool × List (Option Span) × List Expr × Ctx) :=
  asBAC (engine fuel (.iloop k minRep upper att cs ctx))

/-- The body of `matches` before the `synchronize_context` wrapper is applied:
the generic `Expression.matches` (lines 147-168) for the three leaf variants,
`AbstractIteratorExpression.matches` (lines 308-325) for the composites.
Returns the decorated method's boolean with the attempt it built, the updated
children and the updated context. -/
def matchesFnE (fuel : Nat) (e : Expr) (ctx : Ctx) :
    Res (Bool × List (Option Span) × List Expr × Ctx) :=
  asBAC (engine fuel (.mfn e ctx))

/-- `matches(context)`: the variant-specific body wrapped by
`synchronize_context.wrap_matches` (lines 18-27). -/
def matchesE (fuel : Nat) (e : Expr) (ctx : Ctx) : Res (Bool × Expr × Ctx) :=
  asBEC (engine fuel (.mtch e ctx))

/-- The body of the generic `Expression.retry` (lines 192-205). -/
def leafRetryFnE (fuel : Nat) (minRep : Nat) (maxRep : Option Nat) (greedy : Bool)
    (k : EKind) (att : List (Option Span)) (ctx : Ctx) :
    Res (Bool × List (Option Span) × Ctx) :=
  asLRet (engine fuel (.lretry minRep maxRep greedy k att ctx))

/-- The body of `retry` before the `synchronize_context` wrapper is applied. -/
def retryFnE (fuel : Nat) (e : Expr) (att0 : List (Option Span)) (ctx : Ctx) :
    Res (Bool × List (Option Span) × List Expr × Ctx) :=
  asBAC (engine fuel (.rfn e att0 ctx))

/-- `retry(context)`: the variant-specific body wrapped by
`synchronize_context.wrap_retry` (lines 29-36). -/
def retryE (fuel : Nat) (e : Expr) (ctx : Ctx) : Res (Bool × Expr × Ctx) :=
  asBEC (engine fuel (.rtry e ctx))

/-- `undo(context)` (lines 207-213 with the composite overrides). -/
def undoE (fuel : Nat) (e : Expr) (ctx : Ctx) : Res (Expr × Ctx) :=
  asEC (engine fuel (.und e ctx))

/-- The shared work of `undo` on a given current attempt (named wrapper
over the engine's `undC` operation). -/
def undoCoreE (fuel : Nat) (k : EKind) (names : Option (List Ident))
    (att : List (Option Span)) (cs : List Expr) (ctx : Ctx) : Res (List Expr × Ctx) :=
  asCC (engine fuel (.undC k names att cs ctx))

/-- `synchronize_context.wrap_matches` (lines 18-27) as a function of
the wrapped body's result. -/
def wrapMatches (e : Expr) (r : Res (Bool × List (Option Span) × List Expr × Ctx)) :
    Res (Bool × Expr × Ctx) :=
  match r with
  | .err => .err
  | .spin => .spin
  | .ok (true, att, cs', ctx') =>
    let e' := e.setState cs' (e.mstack ++ [att])
    match e.names with
    | none => .ok (true, e', ctx')
    | some ns =>
      if e'.hasCurrentRep then
        match e'.currentRepSpan with
        | .err => .err
        | .spin => .spin
        | .ok sp => .ok (true, e', {ctx' with table := pushMatch ctx'.table ns (copySE sp)})
      else .ok (true, e', ctx')
  | .ok (false, att, cs', ctx') =>
    let e' := e.setState cs' e.mstack
    match att.head? with
    | none => .ok (false, e', ctx')
    | some o =>
      match espan o with
      | .err => .err
      | .spin => .spin
      | .ok sp => .ok (false, e', {ctx' with progress := sp.start})

/-- `synchronize_context.wrap_retry` (lines 29-36) as a function of the
wrapped body's result, given the attempt stack split into `rest` and
the current attempt handed to the body. -/
def wrapRetry (fuel : Nat) (e : Expr) (rest : List (List (Option Span)))
    (r : Res (Bool × List (Option Span) × List Expr × Ctx)) : Res (Bool × Expr × Ctx) :=
  match r with
  | .err => .err
  | .spin => .spin
  | .ok (true, att', cs', ctx') =>
    let e' := e.setState cs' (rest ++ [att'])
    match e.names with
    | none => .ok (true, e', ctx')
    | some ns =>
      if e'.hasCurrentRep then
        match e'.currentRepSpan with
        | .err => .err
        | .spin => .spin
        | .ok sp =>
          match overrideMatch ctx'.table ns (copySE sp) with
          | .err => .err
          | .spin => .spin
          | .ok t' => .ok (true, e' , {ctx' with table := t'})
      else .ok (true, e', ctx')
  | .ok (false, att', cs', ctx') =>
    match undoCoreE fuel e.kind e.names att' cs' ctx' with
    | .err => .err
    | .spin => .spin
    | .ok (cs'', ctx'') => .ok (false, e.setState cs'' rest, ctx'')

/-- The three variants whose `matches`/`retry` are the generic
`Expression.matches` / `Expression.retry` (the composites override
them). -/
def EKind.isLeaf : EKind → Bool
  | .anyOf => false
  | .group => false
  | _ => true

/-- The primitive single-step matcher of a leaf node as a function of
the context alone (leaf `_matches_once` neither recurses nor touches
node state, so fuel `1` is enough). -/
def stepFn (k : EKind) (ctx : Ctx) : Res (Option Span) :=
  (matchesOnceE 1 k [] ctx).bind fun r => .ok r.1

/-- The repetition loop of the generic `Expression.matches`
(lines 160-166) as a relation: starting with `n` spans collected, the
loop stops at the end of the subject, at the repetition limit, or on a
failing primitive step, and otherwise appends the produced span and
advances the cursor to its end. -/
inductive LoopRun (stp : Ctx → Res (Option Span)) (limit : Option Nat) :
    Nat → Ctx → List Span → Ctx → Prop where
  | stopEnd : ∀ n ctx, ¬ ctx.progress < ctx.subject.length → LoopRun stp limit n ctx [] ctx
  | stopLimit : ∀ n ctx, ltLimit n limit = false → LoopRun stp limit n ctx [] ctx
  | stopFail : ∀ n ctx, stp ctx = .ok none → LoopRun stp limit n ctx [] ctx
  | more : ∀ n ctx sp spans ctx', ctx.progress < ctx.subject.length →
      ltLimit n limit = true → stp ctx = .ok (some sp) →
      LoopRun stp limit (n + 1) {ctx with progress := sp.stop} spans ctx' →
      LoopRun stp limit n ctx (sp :: spans) ctx'

/-- The attempt loop exactly as claim C1 words it: repeatedly invoke
the primitive step at the current cursor, appending each produced span
and advancing the cursor to its end, stopping (only) when the step
fails or the attempt holds `repetition_limit` spans. -/
def claimLoopC1 : Nat → (Ctx → Res (Option Span)) → Option Nat → List Span → Ctx →
    Res (List Span × Ctx)
  | 0, _, _, _, _ => .spin
  | fuel+1, stp, upper, spans, ctx =>
    if ltLimit spans.length upper then
      match stp ctx with
      | .err => .err
      | .spin => .spin
      | .ok none => .ok (spans, ctx)
      | .ok (some m) => claimLoopC1 fuel stp upper (spans ++ [m]) {ctx with progress := m.stop}
    else .ok (spans, ctx)
termination_by structural fuel => fuel

/-- The attempt operation exactly as claim C1 words it: push a fresh
attempt, run the claimed loop, and succeed iff at least
`min_repetitions` spans were collected. -/
def claimAttemptC1 (fuel : Nat) (minRep : Nat) (upper : Option Nat)
    (stp : Ctx → Res (Option Span)) (ctx : Ctx) : Res (Bool × List Span × Ctx) :=
  (claimLoopC1 fuel stp upper [] ctx).bind fun r =>
    .ok (decide (minRep ≤ r.1.length), r.1, r.2)

/-- One step of the protocol driven from outside: which operation is
invoked on the node, and with which context (the context evolves under
the control of the rest of the tree between operations on one node). -/
inductive OpKind where
  | mtch (ctx : Ctx)
  | rtry (ctx : Ctx)
  | und (ctx : Ctx)

/-- Run a sequence of protocol operations against one node, counting
the successful `matches` calls, the failed (terminal) `retry` calls and
the `undo` calls. -/
def runOps (fuel : Nat) : Expr → List OpKind → Res (Expr × Nat × Nat × Nat)
  | e, [] => .ok (e, 0, 0, 0)
  | e, .mtch ctx :: rest =>
    (matchesE fuel e ctx).bind fun r =>
      (runOps fuel r.2.1 rest).bind fun out =>
        .ok (out.1, out.2.1 + (if r.1 then 1 else 0), out.2.2.1, out.2.2.2)
  | e, .rtry ctx :: rest =>
    (retryE fuel e ctx).bind fun r =>
      (runOps fuel r.2.1 rest).bind fun out =>
        .ok (out.1, out.2.1, out.2.2.1 + (if r.1 then 0 else 1), out.2.2.2)
  | e, .und ctx :: rest =>
    (undoE fuel e ctx).bind fun r =>
      (runOps fuel r.1 rest).bind fun out =>
        .ok (out.1, out.2.1, out.2.2.1, out.2.2.2 + 1)

/-- Project a `matches`/`retry` result to the returned boolean and the
final cursor. -/
def resultBoolProgress (r : Res (Bool × Expr × Ctx)) : Res (Bool × Nat) :=
  r.bind fun x => .ok (x.1, x.2.2.progress)

/-- Project a `matches`/`retry` result to the returned boolean, the
node's attempt stack, the final cursor and the final capture table. -/
def resultView (r : Res (Bool × Expr × Ctx)) :
    Res (Bool × List (List (Option Span)) × Nat × Table) :=
  r.bind fun x => .ok (x.1, x.2.1.mstack, x.2.2.progress, x.2.2.table)

/-- Chain a `retry` call after a previous `matches`/`retry` result. -/
def andThenRetry (fuel : Nat) (r : Res (Bool × Expr × Ctx)) : Res (Bool × Expr × Ctx) :=
  r.bind fun x => retryE fuel x.2.1 x.2.2

/-! ## Concrete scenario data used by the claims -/

def identN : Ident := .str "n"

def identFoo : Ident := .str "foo"

/-- The node `a+` (greedy, min 1, unbounded max). -/
def nodeAPlus : Expr := .node 1 none true none (.char 'a') [] []

/-- The node `a+?` (non-greedy, min 1, unbounded max). -/
def nodeAPlusNG : Expr := .node 1 none false none (.char 'a') [] []

def ctxAAAA : Ctx := ⟨0, "aaaa".toList, []⟩

/-- The inner group of `(a+a{2,}a){3,}a`. -/
def c4inner : Expr := .node 3 none true none .group
  [.node 1 none true none (.char 'a') [] [],
   .node 2 none true none (.char 'a') [] [],
   .node 1 (some 1) true none (.char 'a') [] []] []

/-- The tree equivalent to `(a+a{2,}a){3,}a`. -/
def c4root : Expr := .node 1 (some 1) true none .group
  [c4inner, .node 1 (some 1) true none (.char 'a') [] []] []

def ctx16 : Ctx := ⟨0, List.replicate 16 'a', []⟩

/-- The alternation `a|b`. -/
def c5alt : Expr := .node 1 (some 1) true none .anyOf
  [.node 1 (some 1) true none (.char 'a') [] [],
   .node 1 (some 1) true none (.char 'b') [] []] []

def ctxA : Ctx := ⟨0, "a".toList, []⟩

/-- The tree equivalent to `(a|b)x`, exercising a parent-driven retry
of the alternation. -/
def c5grp : Expr := .node 1 (some 1) true none .group
  [.node 1 (some 1) true none .anyOf
    [.node 1 (some 1) true none (.char 'a') [] [],
     .node 1 (some 1) true none (.char 'b') [] []] [],
   .node 1 (some 1) true none (.char 'x') [] []] []

def ctxAY : Ctx := ⟨0, "ay".toList, []⟩

/-- The tree equivalent to `(?P<n>a)?x`. -/
def c2grp : Expr := .node 1 (some 1) true none .group
  [.node 0 (some 1) true (some [identN]) (.char 'a') [] [],
   .node 1 (some 1) true none (.char 'x') [] []] []

/-- A context whose capture table already holds an entry for `n`
(as arises when an earlier sibling group named `n` has matched). -/
def c2ctx : Ctx := ⟨0, "b".toList, [(identN, [⟨0, 0, none⟩])]⟩

/-- The node `(?P<n>a)?`. -/
def c6node : Expr := .node 0 (some 1) true (some [identN]) (.char 'a') [] []

/-- The tree equivalent to `(?P<foo>a)?b`. -/
def c7grp : Expr := .node 1 (some 1) true none .group
  [.node 0 (some 1) true (some [identFoo]) (.char 'a') [] [],
   .node 1 (some 1) true none (.char 'b') [] []] []

def ctxB : Ctx := ⟨0, "b".toList, []⟩

/-- A root group wrapping a single literal, as produced for the
pattern `(a)` with the conventional whole-match group `0`. -/
def c3root : Expr := .node 1 (some 1) true (some [.num 0]) .group
  [.node 1 (some 1) true none (.char 'a') [] []] []

/-- A context at the end of its (empty) subject whose table holds a
live capture of the empty string under `n`. -/
def ctxEmptyN : Ctx := ⟨0, [], [(identN, [⟨0, 0, none⟩])]⟩

/-- A back-reference node `\n` with min 1, max 1, greedy. -/
def nodeBackN : Expr := .node 1 (some 1) true none (.backref identN) [] []

/-- The tree `(ab){2}` (a group with min 2, max 2, two literal
children). -/
def c3ab : Expr := .node 2 (some 2) true none .group
  [.node 1 (some 1) true none (.char 'a') [] [],
   .node 1 (some 1) true none (.char 'b') [] []] []

/-- Context for subject `"ab"`. -/
def ctxAB : Ctx := ⟨0, "ab".toList, []⟩

/-- `GroupExpression._matches_once.__match_one_child(i)` (lines
439-452) as a named wrapper. -/
def moneE (fuel : Nat) (i : Nat) (cs : List Expr) (ctx : Ctx) :
    Res (Bool × List Expr × Ctx) :=
  asBCC (engine fuel (.mone i cs ctx))

/-- The `while not __match_one_child(child + 1)` loop (lines 448-451). -/
def mdownE (fuel : Nat) (i : Nat) (cs : List Expr) (ctx : Ctx) :
    Res (Bool × List Expr × Ctx) :=
  asBCC (engine fuel (.mdown i cs ctx))

/-- `GroupExpression.__retry_one_child(i)` (lines 504-513). -/
def roneE (fuel : Nat) (i : Nat) (cs : List Expr) (ctx : Ctx) :
    Res (Bool × List Expr × Ctx) :=
  asBCC (engine fuel (.rone i cs ctx))

/-- The `while __retry_one_child(child - 1)` loop (lines 510-512). -/
def rupE (fuel : Nat) (i : Nat) (cs : List Expr) (ctx : Ctx) :
    Res (Bool × List Expr × Ctx) :=
  asBCC (engine fuel (.rup i cs ctx))

/-- `_reevaluate_previous_repetition` dispatch. -/
def reevE (fuel : Nat) (k : EKind) (att : List (Option Span)) (cs : List Expr) (ctx : Ctx) :
    Res (Bool × List (Option Span) × List Expr × Ctx) :=
  asBAC (engine fuel (.reev k att cs ctx))

/-- `GroupExpression._reevaluate_previous_repetition` (lines 515-527). -/
def grpReevE (fuel : Nat) (att : List (Option Span)) (cs : List Expr) (ctx : Ctx) :
    Res (Bool × List (Option Span) × List Expr × Ctx) :=
  asBAC (engine fuel (.grpReev att cs ctx))

/-- The `while self._reevaluate_previous_repetition(context)` loop of
`GroupExpression._matches_once` (lines 529-534). -/
def grpLoopE (fuel : Nat) (att : List (Option Span)) (cs : List Expr) (ctx : Ctx) :
    Res (Bool × List (Option Span) × List Expr × Ctx) :=
  asBAC (engine fuel (.grpLoop att cs ctx))

/-- The inner fill loop of `AbstractIteratorExpression.matches`
(lines 317-321). -/
def iterFillE (fuel : Nat) (k : EKind) (upper : Option Nat) (att : List (Option Span))
    (cs : List Expr) (ctx : Ctx) : Res (List (Option Span) × List Expr × Ctx) :=
  asFill (engine fuel (.ifill k upper att cs ctx))

/-- `e` is `e0` with `r` extra attempts pushed onto its stack and no
other change (the protocol operations of a leaf never touch its
children). -/
def IsExt (e0 e : Expr) (r : Nat) : Prop :=
  ∃ extra : List (List (Option Span)), extra.length = r ∧
    e = e0.setState e0.children (e0.mstack ++ extra)

/-- Pointwise extension of a child list: `cs` is `cs0` with `d j`
extra attempts on the `j`-th child. -/
def ExtAt (cs0 cs : List Expr) (d : Nat → Nat) : Prop :=
  cs.length = cs0.length ∧
  ∀ j, j < cs0.length → ∃ c0 c, cs0[j]? = some c0 ∧ cs[j]? = some c ∧ IsExt c0 c (d j)

/-! ## Helper lemmas about the engine -/

theorem matchesE_zero (e : Expr) (ctx : Ctx) : matchesE 0 e ctx = .spin := rfl

theorem matchesFnE_zero (e : Expr) (ctx : Ctx) : matchesFnE 0 e ctx = .spin := rfl

theorem retryE_zero (e : Expr) (ctx : Ctx) : retryE 0 e ctx = .spin := rfl

theorem undoE_zero (e : Expr) (ctx : Ctx) : undoE 0 e ctx = .spin := rfl

/-- Unfold one level of `matches`: the decorated body, then the
`wrap_matches` wrapper. -/
theorem matchesE_succ (fuel : Nat) (e : Expr) (ctx : Ctx) :
    matchesE (fuel + 1) e ctx = wrapMatches e (matchesFnE fuel e ctx) := by
  have hfn : matchesFnE fuel e ctx = asBAC (engine fuel (.mfn e ctx)) := rfl
  rw [hfn]
  cases h : engine fuel (.mfn e ctx) with
  | err => simp [matchesE, engine, h, asBAC, asBEC, wrapMatches]
  | spin => simp [matchesE, engine, h, asBAC, asBEC, wrapMatches]
  | ok out =>
    cases out with
    | bac b att cs ctx' =>
      cases b
      · cases hh : att.head? with
        | none => simp [matchesE, engine, h, hh, asBAC, asBEC, wrapMatches]
        | some o =>
          cases ho : espan o <;>
            simp [matchesE, engine, h, hh, ho, asBAC, asBEC, wrapMatches]
      · cases hn : e.names with
        | none => simp [matchesE, engine, h, hn, asBAC, asBEC, wrapMatches]
        | some ns =>
          by_cases hc : (e.setState cs (e.mstack ++ [att])).hasCurrentRep
          · cases hs : (e.setState cs (e.mstack ++ [att])).currentRepSpan <;>
              simp [matchesE, engine, h, hn, hc, hs, asBAC, asBEC, wrapMatches]
          · simp [matchesE, engine, h, hn, hc, asBAC, asBEC, wrapMatches]
    | once o cs c => simp [matchesE, engine, h, asBAC, asBEC, wrapMatches]
    | bcc b cs c => simp [matchesE, engine, h, asBAC, asBEC, wrapMatches]
    | fill a cs c => simp [matchesE, engine, h, asBAC, asBEC, wrapMatches]
    | lfl a c => simp [matchesE, engine, h, asBAC, asBEC, wrapMatches]
    | lrt b a c => simp [matchesE, engine, h, asBAC, asBEC, wrapMatches]
    | bec b e2 c => simp [matchesE, engine, h, asBAC, asBEC, wrapMatches]
    | ec e2 c => simp [matchesE, engine, h, asBAC, asBEC, wrapMatches]
    | cc cs c => simp [matchesE, engine, h, asBAC, asBEC, wrapMatches]

/-- Unfold one level of `retry`: the current attempt is read off the
stack (IndexError when absent), the decorated body runs on it, and the
`wrap_retry` wrapper finishes. -/
theorem retryE_succ (fuel : Nat) (e : Expr) (ctx : Ctx) :
    retryE (fuel + 1) e ctx =
      match e.mstack.getLast? with
      | none => .err
      | some att0 => wrapRetry fuel e e.mstack.dropLast (retryFnE fuel e att0 ctx) := by
  cases hl : e.mstack.getLast? with
  | none => simp [retryE, engine, hl, asBEC]
  | some att0 =>
    show retryE (fuel + 1) e ctx = wrapRetry fuel e e.mstack.dropLast (retryFnE fuel e att0 ctx)
    have hfn : retryFnE fuel e att0 ctx = asBAC (engine fuel (.rfn e att0 ctx)) := rfl
    rw [hfn]
    cases h : engine fuel (.rfn e att0 ctx) with
    | err => simp [retryE, engine, hl, h, asBAC, asBEC, wrapRetry]
    | spin => simp [retryE, engine, hl, h, asBAC, asBEC, wrapRetry]
    | ok out =>
      cases out with
      | bac b att cs ctx' =>
        cases b
        · cases hu : undoCoreE fuel e.kind e.names att cs ctx' with
          | err =>
            simp [retryE, engine, hl, h, asBAC, asBEC, wrapRetry, undoCoreE] at hu ⊢
            simp [hu]
          | spin =>
            simp [retryE, engine, hl, h, asBAC, asBEC, wrapRetry, undoCoreE] at hu ⊢
            simp [hu]
          | ok r =>
            simp [retryE, engine, hl, h, asBAC, asBEC, wrapRetry, undoCoreE] at hu ⊢
            simp [hu]
        · cases hn : e.names with
          | none => simp [retryE, engine, hl, h, hn, asBAC, asBEC, wrapRetry]
          | some ns =>
            by_cases hc : (e.setState cs (e.mstack.dropLast ++ [att])).hasCurrentRep
            · cases hs : (e.setState cs (e.mstack.dropLast ++ [att])).currentRepSpan with
              | ok sp =>
                cases ho : overrideMatch ctx'.table ns (copySE sp) <;>
                  simp [retryE, engine, hl, h, hn, hc, hs, ho, asBAC, asBEC, wrapRetry]
              | err => simp [retryE, engine, hl, h, hn, hc, hs, asBAC, asBEC, wrapRetry]
              | spin => simp [retryE, engine, hl, h, hn, hc, hs, asBAC, asBEC, wrapRetry]
            · simp [retryE, engine, hl, h, hn, hc, asBAC, asBEC, wrapRetry]
      | once o cs c => simp [retryE, engine, hl, h, asBAC, asBEC, wrapRetry]
      | bcc b cs c => simp [retryE, engine, hl, h, asBAC, asBEC, wrapRetry]
      | fill a cs c => simp [retryE, engine, hl, h, asBAC, asBEC, wrapRetry]
      | lfl a c => simp [retryE, engine, hl, h, asBAC, asBEC, wrapRetry]
      | lrt b a c => simp [retryE, engine, hl, h, asBAC, asBEC, wrapRetry]
      | bec b e2 c => simp [retryE, engine, hl, h, asBAC, asBEC, wrapRetry]
      | ec e2 c => simp [retryE, engine, hl, h, asBAC, asBEC, wrapRetry]
      | cc cs c => simp [retryE, engine, hl, h, asBAC, asBEC, wrapRetry]

/-- A leaf primitive step leaves the children and the context
untouched, does not depend on the fuel, and agrees with `stepFn`. -/
theorem matchesOnceE_leaf (fuel : Nat) (k : EKind) (hk : k.isLeaf = true)
    (cs : List Expr) (ctx : Ctx) :
    matchesOnceE (fuel + 1) k cs ctx =
      (stepFn k ctx).bind fun o => .ok (o, cs, ctx) := by
  cases k with
  | char c =>
    cases h : ctx.subject[ctx.progress]? <;>
      simp [matchesOnceE, stepFn, engine, h, asOnce, Res.bind]
  | range lo hi =>
    cases h : ctx.subject[ctx.progress]? <;>
      simp [matchesOnceE, stepFn, engine, h, asOnce, Res.bind]
  | backref r =>
    cases h : getMatchString ctx r <;>
      simp [matchesOnceE, stepFn, engine, h, asOnce, Res.bind]
  | anyOf => simp [EKind.isLeaf] at hk
  | group => simp [EKind.isLeaf] at hk

/-- Unfold one iteration of the generic `Expression.matches` loop. -/
theorem leafFillE_succ (fuel : Nat) (k : EKind) (upper : Option Nat)
    (att : List (Option Span)) (ctx : Ctx) :
    leafFillE (fuel + 1) k upper att ctx =
      if ctx.progress < ctx.subject.length ∧ ltLimit att.length upper then
        match matchesOnceE fuel k [] ctx with
        | .err => .err
        | .spin => .spin
        | .ok (none, _, ctx') => .ok (att, ctx')
        | .ok (some m, _, ctx') =>
          leafFillE fuel k upper (att ++ [some m]) {ctx' with progress := m.stop}
      else .ok (att, ctx) := by
  by_cases hg : ctx.progress < ctx.subject.length ∧ ltLimit att.length upper
  · cases h : engine fuel (.monce k [] ctx) with
    | err => simp [leafFillE, matchesOnceE, engine, hg, h, asOnce, asLFill]
    | spin => simp [leafFillE, matchesOnceE, engine, hg, h, asOnce, asLFill]
    | ok out =>
      cases out with
      | once o cs c =>
        cases o <;> simp [leafFillE, matchesOnceE, engine, hg, h, asOnce, asLFill]
      | bcc b cs c => simp [leafFillE, matchesOnceE, engine, hg, h, asOnce, asLFill]
      | bac b a cs c => simp [leafFillE, matchesOnceE, engine, hg, h, asOnce, asLFill]
      | fill a cs c => simp [leafFillE, matchesOnceE, engine, hg, h, asOnce, asLFill]
      | lfl a c => simp [leafFillE, matchesOnceE, engine, hg, h, asOnce, asLFill]
      | lrt b a c => simp [leafFillE, matchesOnceE, engine, hg, h, asOnce, asLFill]
      | bec b e2 c => simp [leafFillE, matchesOnceE, engine, hg, h, asOnce, asLFill]
      | ec e2 c => simp [leafFillE, matchesOnceE, engine, hg, h, asOnce, asLFill]
      | cc cs c => simp [leafFillE, matchesOnceE, engine, hg, h, asOnce, asLFill]
  · simp [leafFillE, engine, hg, asLFill]

/-- The decorated body of `matches` on a leaf node is the generic
repetition loop followed by the `min_repetitions` test. -/
theorem matchesFnE_leaf (fuel : Nat) (e : Expr) (hk : e.kind.isLeaf = true) (ctx : Ctx) :
    matchesFnE (fuel + 1) e ctx =
      match leafFillE fuel e.kind (if e.greedy then e.maxRep else some e.minRep) [] ctx with
      | .err => .err
      | .spin => .spin
      | .ok (att, ctx') => .ok (decide (e.minRep ≤ att.length), att, e.children, ctx') := by
  cases hke : e.kind with
  | char c =>
    cases h : engine fuel (.lfill (.char c) (if e.greedy then e.maxRep else some e.minRep) [] ctx) with
    | err => simp [matchesFnE, leafFillE, engine, hke, h, asLFill, asBAC]
    | spin => simp [matchesFnE, leafFillE, engine, hke, h, asLFill, asBAC]
    | ok out =>
      cases out <;> simp [matchesFnE, leafFillE, engine, hke, h, asLFill, asBAC]
  | range lo hi =>
    cases h : engine fuel (.lfill (.range lo hi) (if e.greedy then e.maxRep else some e.minRep) [] ctx) with
    | err => simp [matchesFnE, leafFillE, engine, hke, h, asLFill, asBAC]
    | spin => simp [matchesFnE, leafFillE, engine, hke, h, asLFill, asBAC]
    | ok out =>
      cases out <;> simp [matchesFnE, leafFillE, engine, hke, h, asLFill, asBAC]
  | backref r =>
    cases h : engine fuel (.lfill (.backref r) (if e.greedy then e.maxRep else some e.minRep) [] ctx) with
    | err => simp [matchesFnE, leafFillE, engine, hke, h, asLFill, asBAC]
    | spin => simp [matchesFnE, leafFillE, engine, hke, h, asLFill, asBAC]
    | ok out =>
      cases out <;> simp [matchesFnE, leafFillE, engine, hke, h, asLFill, asBAC]
  | anyOf => rw [hke] at hk; simp [EKind.isLeaf] at hk
  | group => rw [hke] at hk; simp [EKind.isLeaf] at hk

/-- The decorated body of `retry` on a leaf node is the generic
`Expression.retry` acting on the current attempt. -/
theorem retryFnE_leaf (fuel : Nat) (e : Expr) (hk : e.kind.isLeaf = true)
    (att0 : List (Option Span)) (ctx : Ctx) :
    retryFnE (fuel + 1) e att0 ctx =
      match leafRetryFnE fuel e.minRep e.maxRep e.greedy e.kind att0 ctx with
      | .err => .err
      | .spin => .spin
      | .ok (b, att', ctx') => .ok (b, att', e.children, ctx') := by
  cases hke : e.kind with
  | char c =>
    cases h : engine fuel (.lretry e.minRep e.maxRep e.greedy (.char c) att0 ctx) with
    | err => simp [retryFnE, leafRetryFnE, engine, hke, h, asLRet, asBAC]
    | spin => simp [retryFnE, leafRetryFnE, engine, hke, h, asLRet, asBAC]
    | ok out =>
      cases out <;> simp [retryFnE, leafRetryFnE, engine, hke, h, asLRet, asBAC]
  | range lo hi =>
    cases h : engine fuel (.lretry e.minRep e.maxRep e.greedy (.range lo hi) att0 ctx) with
    | err => simp [retryFnE, leafRetryFnE, engine, hke, h, asLRet, asBAC]
    | spin => simp [retryFnE, leafRetryFnE, engine, hke, h, asLRet, asBAC]
    | ok out =>
      cases out <;> simp [retryFnE, leafRetryFnE, engine, hke, h, asLRet, asBAC]
  | backref r =>
    cases h : engine fuel (.lretry e.minRep e.maxRep e.greedy (.backref r) att0 ctx) with
    | err => simp [retryFnE, leafRetryFnE, engine, hke, h, asLRet, asBAC]
    | spin => simp [retryFnE, leafRetryFnE, engine, hke, h, asLRet, asBAC]
    | ok out =>
      cases out <;> simp [retryFnE, leafRetryFnE, engine, hke, h, asLRet, asBAC]
  | anyOf => rw [hke] at hk; simp [EKind.isLeaf] at hk
  | group => rw [hke] at hk; simp [EKind.isLeaf] at hk

/-- Unfold the body of the generic `Expression.retry` (lines 192-205). -/
theorem leafRetryFnE_succ (fuel : Nat) (minRep : Nat) (maxRep : Option Nat) (greedy : Bool)
    (k : EKind) (att : List (Option Span)) (ctx : Ctx) :
    leafRetryFnE (fuel + 1) minRep maxRep greedy k att ctx =
      if eqLimit att.length (if greedy then some minRep else maxRep) then
        .ok (false, att, ctx)
      else if greedy then
        match att.getLast? with
        | none => .err
        | some o =>
          match espan o with
          | .err => .err
          | .spin => .spin
          | .ok sp => .ok (true, att.dropLast, {ctx with progress := sp.start})
      else
        match matchesOnceE fuel k [] ctx with
        | .err => .err
        | .spin => .spin
        | .ok (none, _, ctx') => .ok (false, att, ctx')
        | .ok (some m, _, ctx') => .ok (true, att ++ [some m], {ctx' with progress := m.stop}) := by
  cases greedy with
  | true =>
    by_cases hl : eqLimit att.length (some minRep)
    · simp [leafRetryFnE, engine, hl, asLRet]
    · cases ha : att.getLast? with
      | none => simp [leafRetryFnE, engine, hl, ha, asLRet]
      | some o => cases o <;> simp [leafRetryFnE, engine, hl, ha, asLRet, espan]
  | false =>
    by_cases hl : eqLimit att.length maxRep
    · simp [leafRetryFnE, engine, hl, asLRet]
    · cases h : engine fuel (.monce k [] ctx) with
      | err => simp [leafRetryFnE, matchesOnceE, engine, hl, h, asOnce, asLRet]
      | spin => simp [leafRetryFnE, matchesOnceE, engine, hl, h, asOnce, asLRet]
      | ok out =>
        cases out with
        | once o cs c =>
          cases o <;> simp [leafRetryFnE, matchesOnceE, engine, hl, h, asOnce, asLRet]
        | bcc b cs c => simp [leafRetryFnE, matchesOnceE, engine, hl, h, asOnce, asLRet]
        | bac b a cs c => simp [leafRetryFnE, matchesOnceE, engine, hl, h, asOnce, asLRet]
        | fill a cs c => simp [leafRetryFnE, matchesOnceE, engine, hl, h, asOnce, asLRet]
        | lfl a c => simp [leafRetryFnE, matchesOnceE, engine, hl, h, asOnce, asLRet]
        | lrt b a c => simp [leafRetryFnE, matchesOnceE, engine, hl, h, asOnce, asLRet]
        | bec b e2 c => simp [leafRetryFnE, matchesOnceE, engine, hl, h, asOnce, asLRet]
        | ec e2 c => simp [leafRetryFnE, matchesOnceE, engine, hl, h, asOnce, asLRet]
        | cc cs c => simp [leafRetryFnE, matchesOnceE, engine, hl, h, asOnce, asLRet]

theorem Expr.mstack_setState (e : Expr) (cs : List Expr) (ms : List (List (Option Span))) :
    (e.setState cs ms).mstack = ms := by cases e; rfl

theorem Expr.kind_setState (e : Expr) (cs : List Expr) (ms : List (List (Option Span))) :
    (e.setState cs ms).kind = e.kind := by cases e; rfl

theorem Expr.names_setState (e : Expr) (cs : List Expr) (ms : List (List (Option Span))) :
    (e.setState cs ms).names = e.names := by cases e; rfl

/-- Inversion of a successful pass through `wrap_matches`: the body
produced the same boolean, the attempt is pushed exactly when the call
succeeded, and when nothing was captured (no current repetition) the
wrapper returns the body's context unchanged. -/
theorem wrapMatches_ok {e : Expr} {r : Res (Bool × List (Option Span) × List Expr × Ctx)}
    {b : Bool} {e' : Expr} {ctx' : Ctx} (h : wrapMatches e r = .ok (b, e', ctx')) :
    ∃ att cs₁ ctx₁, r = .ok (b, att, cs₁, ctx₁) ∧
      e' = e.setState cs₁ (if b then e.mstack ++ [att] else e.mstack) ∧
      (b = true → e'.hasCurrentRep = false → ctx' = ctx₁) := by
  cases hr : r with
  | err => rw [hr] at h; simp [wrapMatches] at h
  | spin => rw [hr] at h; simp [wrapMatches] at h
  | ok v =>
    obtain ⟨b₁, att, cs₁, ctx₁⟩ := v
    cases b₁ with
    | false =>
      cases hh : att.head? with
      | none =>
        rw [hr] at h
        simp [wrapMatches, hh] at h
        obtain ⟨hb, he, hc⟩ := h
        subst hb; subst he; subst hc
        exact ⟨att, cs₁, ctx₁, rfl, by simp, by intro hbt; cases hbt⟩
      | some o =>
        cases o with
        | none => rw [hr] at h; simp [wrapMatches, hh, espan] at h
        | some sp =>
          rw [hr] at h
          simp [wrapMatches, hh, espan] at h
          obtain ⟨hb, he, hc⟩ := h
          subst hb; subst he
          exact ⟨att, cs₁, ctx₁, rfl, by simp, by intro hbt; cases hbt⟩
    | true =>
      cases hn : e.names with
      | none =>
        rw [hr] at h
        simp [wrapMatches, hn] at h
        obtain ⟨hb, he, hc⟩ := h
        subst hb; subst he; subst hc
        exact ⟨att, cs₁, ctx₁, rfl, by simp, fun _ _ => rfl⟩
      | some ns =>
        by_cases hcr : (e.setState cs₁ (e.mstack ++ [att])).hasCurrentRep
        · cases hs : (e.setState cs₁ (e.mstack ++ [att])).currentRepSpan with
          | ok sp =>
            rw [hr] at h
            simp [wrapMatches, hn, hcr, hs] at h
            obtain ⟨hb, he, hc⟩ := h
            subst hb; subst he
            refine ⟨att, cs₁, ctx₁, rfl, by simp, ?_⟩
            intro _ hnr
            exact absurd hnr (by simp [hcr])
          | err => rw [hr] at h; simp [wrapMatches, hn, hcr, hs] at h
          | spin => rw [hr] at h; simp [wrapMatches, hn, hcr, hs] at h
        · rw [hr] at h
          simp [wrapMatches, hn, hcr] at h
          obtain ⟨hb, he, hc⟩ := h
          subst hb; subst he; subst hc
          exact ⟨att, cs₁, ctx₁, rfl, by simp, fun _ _ => rfl⟩

/-- Inversion of a successful pass through `wrap_retry`: on success the
current attempt is replaced and the capture entry for the node's names
is overwritten with the new last repetition — unless the attempt is now
empty, in which case the wrapper leaves the context exactly as the body
returned it (no removal); on failure `undo` ran. -/
theorem wrapRetry_ok {fuel : Nat} {e : Expr} {rest : List (List (Option Span))}
    {r : Res (Bool × List (Option Span) × List Expr × Ctx)}
    {b : Bool} {e' : Expr} {ctx' : Ctx} (h : wrapRetry fuel e rest r = .ok (b, e', ctx')) :
    ∃ att cs₁ ctx₁, r = .ok (b, att, cs₁, ctx₁) ∧
      (b = true → e' = e.setState cs₁ (rest ++ [att]) ∧
        (match e.names with
         | none => ctx' = ctx₁
         | some ns =>
           (e'.hasCurrentRep = true → ∃ sp, e'.currentRepSpan = .ok sp ∧
             overrideMatch ctx₁.table ns (copySE sp) = .ok ctx'.table ∧
             ctx'.progress = ctx₁.progress ∧ ctx'.subject = ctx₁.subject) ∧
           (e'.hasCurrentRep = false → ctx' = ctx₁))) ∧
      (b = false → ∃ cs₂ ctx₂, undoCoreE fuel e.kind e.names att cs₁ ctx₁ = .ok (cs₂, ctx₂) ∧
        e' = e.setState cs₂ rest ∧ ctx' = ctx₂) := by
  cases hr : r with
  | err => rw [hr] at h; simp [wrapRetry] at h
  | spin => rw [hr] at h; simp [wrapRetry] at h
  | ok v =>
    obtain ⟨b₁, att, cs₁, ctx₁⟩ := v
    cases b₁ with
    | false =>
      rw [hr] at h
      cases hu : undoCoreE fuel e.kind e.names att cs₁ ctx₁ with
      | err => simp [wrapRetry, hu] at h
      | spin => simp [wrapRetry, hu] at h
      | ok p =>
        obtain ⟨cs₂, ctx₂⟩ := p
        simp [wrapRetry, hu] at h
        obtain ⟨hb, he, hc⟩ := h
        subst hb; subst he; subst hc
        exact ⟨att, cs₁, ctx₁, rfl, by simp,
          fun _ => ⟨cs₂, ctx₂, hu, rfl, rfl⟩⟩
    | true =>
      rw [hr] at h
      cases hn : e.names with
      | none =>
        simp [wrapRetry, hn] at h
        obtain ⟨hb, he, hc⟩ := h
        subst hb; subst he; subst hc
        refine ⟨att, cs₁, ctx₁, rfl, fun _ => ⟨rfl, ?_⟩, by simp⟩
        simp only [hn]
      | some ns =>
        by_cases hcr : (e.setState cs₁ (rest ++ [att])).hasCurrentRep
        · cases hs : (e.setState cs₁ (rest ++ [att])).currentRepSpan with
          | err => simp [wrapRetry, hn, hcr, hs] at h
          | spin => simp [wrapRetry, hn, hcr, hs] at h
          | ok sp =>
            cases ho : overrideMatch ctx₁.table ns (copySE sp) with
            | err => simp [wrapRetry, hn, hcr, hs, ho] at h
            | spin => simp [wrapRetry, hn, hcr, hs, ho] at h
            | ok t' =>
              simp [wrapRetry, hn, hcr, hs, ho] at h
              obtain ⟨hb, he, hc⟩ := h
              subst hb; subst he; subst hc
              refine ⟨att, cs₁, ctx₁, rfl, fun _ => ⟨rfl, ?_⟩, by simp⟩
              simp only [hn]
              refine ⟨fun _ => ⟨sp, hs, by simp [ho], by simp, by simp⟩,
                fun hnr => absurd hnr (by simp [hcr])⟩
        · simp [wrapRetry, hn, hcr] at h
          obtain ⟨hb, he, hc⟩ := h
          subst hb; subst he; subst hc
          refine ⟨att, cs₁, ctx₁, rfl, fun _ => ⟨rfl, ?_⟩, by simp⟩
          simp only [hn]
          refine ⟨fun hyes => absurd hyes (by simp [hcr]), fun _ => by trivial⟩

/-- Unfold one level of `undo`. -/
theorem undoE_succ (fuel : Nat) (e : Expr) (ctx : Ctx) :
    undoE (fuel + 1) e ctx =
      match e.mstack.getLast? with
      | none => .err
      | some att =>
        match undoCoreE fuel e.kind e.names att e.children ctx with
        | .err => .err
        | .spin => .spin
        | .ok p => .ok (e.setState p.1 e.mstack.dropLast, p.2) := by
  cases hl : e.mstack.getLast? with
  | none => simp [undoE, engine, hl, asEC]
  | some att =>
    cases hu : engine fuel (.undC e.kind e.names att e.children ctx) with
    | err => simp [undoE, engine, hl, hu, asEC, asCC, undoCoreE]
    | spin => simp [undoE, engine, hl, hu, asEC, asCC, undoCoreE]
    | ok out => cases out <;> simp [undoE, engine, hl, hu, asEC, asCC, undoCoreE]

/-- A successful `matches` pushes exactly one attempt onto the node's
own stack; a failed one leaves the stack depth unchanged. -/
theorem matchesE_depth {fuel : Nat} {e : Expr} {ctx : Ctx} {b : Bool} {e' : Expr} {ctx' : Ctx}
    (h : matchesE fuel e ctx = .ok (b, e', ctx')) :
    e'.mstack.length = e.mstack.length + (if b then 1 else 0) := by
  cases fuel with
  | zero => rw [matchesE_zero] at h; exact absurd h (by simp)
  | succ f =>
    rw [matchesE_succ] at h
    obtain ⟨att, cs₁, ctx₁, _, he, _⟩ := wrapMatches_ok h
    subst he
    cases b <;> simp [Expr.mstack_setState]

/-- A successful `retry` preserves the node's stack depth; a failed one
pops exactly one attempt. -/
theorem retryE_depth {fuel : Nat} {e : Expr} {ctx : Ctx} {b : Bool} {e' : Expr} {ctx' : Ctx}
    (h : retryE fuel e ctx = .ok (b, e', ctx')) :
    e'.mstack.length + (if b then 0 else 1) = e.mstack.length := by
  cases fuel with
  | zero => rw [retryE_zero] at h; exact absurd h (by simp)
  | succ f =>
    rw [retryE_succ] at h
    cases hl : e.mstack.getLast? with
    | none => rw [hl] at h; exact absurd h (by simp)
    | some att0 =>
      rw [hl] at h
      have hlen : 1 ≤ e.mstack.length := by
        cases hm : e.mstack with
        | nil => rw [hm] at hl; simp at hl
        | cons a l => simp [hm]
      obtain ⟨att, cs₁, ctx₁, _, htrue, hfalse⟩ := wrapRetry_ok h
      cases b with
      | true =>
        obtain ⟨he, _⟩ := htrue rfl
        subst he
        simp [Expr.mstack_setState, List.length_dropLast]
        omega
      | false =>
        obtain ⟨cs₂, ctx₂, _, he, _⟩ := hfalse rfl
        subst he
        simp [Expr.mstack_setState, List.length_dropLast]
        omega

/-- `undo` pops exactly one attempt from the node's own stack. -/
theorem undoE_depth {fuel : Nat} {e : Expr} {ctx : Ctx} {e' : Expr} {ctx' : Ctx}
    (h : undoE fuel e ctx = .ok (e', ctx')) :
    e'.mstack.length + 1 = e.mstack.length := by
  cases fuel with
  | zero => rw [undoE_zero] at h; exact absurd h (by simp)
  | succ f =>
    rw [undoE_succ] at h
    cases hl : e.mstack.getLast? with
    | none => rw [hl] at h; exact absurd h (by simp)
    | some att =>
      simp only [hl] at h
      have hlen : 1 ≤ e.mstack.length := by
        cases hm : e.mstack with
        | nil => rw [hm] at hl; simp at hl
        | cons a l => simp [hm]
      cases hu : undoCoreE f e.kind e.names att e.children ctx with
      | err => rw [hu] at h; exact absurd h (by simp)
      | spin => rw [hu] at h; exact absurd h (by simp)
      | ok p =>
        rw [hu] at h
        cases h
        simp [Expr.mstack_setState, List.length_dropLast]
        omega

/-- Over any completed sequence of protocol operations, the node's
stack depth changes by the number of successful `matches` calls minus
the failed `retry` calls and the `undo` calls. -/
theorem runOps_balance : ∀ (ops : List OpKind) (fuel : Nat) (e ef : Expr) (sm fr ud : Nat),
    runOps fuel e ops = .ok (ef, sm, fr, ud) →
    ef.mstack.length + fr + ud = e.mstack.length + sm := by
  intro ops
  induction ops with
  | nil =>
    intro fuel e ef sm fr ud h
    simp only [runOps] at h
    cases h
    simp
  | cons op rest ih =>
    intro fuel e ef sm fr ud h
    cases op with
    | mtch ctx =>
      cases hm : matchesE fuel e ctx with
      | err => simp [runOps, hm, Res.bind] at h
      | spin => simp [runOps, hm, Res.bind] at h
      | ok v =>
        obtain ⟨b, e1, c1⟩ := v
        cases hrun : runOps fuel e1 rest with
        | err => simp [runOps, hm, hrun, Res.bind] at h
        | spin => simp [runOps, hm, hrun, Res.bind] at h
        | ok out =>
          obtain ⟨ef', sm', fr', ud'⟩ := out
          simp only [runOps, hm, hrun, Res.bind] at h
          cases h
          have hd := matchesE_depth hm
          have hi := ih fuel e1 _ _ _ _ hrun
          cases b <;> simp at hd ⊢ <;> omega
    | rtry ctx =>
      cases hm : retryE fuel e ctx with
      | err => simp [runOps, hm, Res.bind] at h
      | spin => simp [runOps, hm, Res.bind] at h
      | ok v =>
        obtain ⟨b, e1, c1⟩ := v
        cases hrun : runOps fuel e1 rest with
        | err => simp [runOps, hm, hrun, Res.bind] at h
        | spin => simp [runOps, hm, hrun, Res.bind] at h
        | ok out =>
          obtain ⟨ef', sm', fr', ud'⟩ := out
          simp only [runOps, hm, hrun, Res.bind] at h
          cases h
          have hd := retryE_depth hm
          have hi := ih fuel e1 _ _ _ _ hrun
          cases b <;> simp at hd ⊢ <;> omega
    | und ctx =>
      cases hm : undoE fuel e ctx with
      | err => simp [runOps, hm, Res.bind] at h
      | spin => simp [runOps, hm, Res.bind] at h
      | ok v =>
        obtain ⟨e1, c1⟩ := v
        cases hrun : runOps fuel e1 rest with
        | err => simp [runOps, hm, hrun, Res.bind] at h
        | spin => simp [runOps, hm, hrun, Res.bind] at h
        | ok out =>
          obtain ⟨ef', sm', fr', ud'⟩ := out
          simp only [runOps, hm, hrun, Res.bind] at h
          cases h
          have hd := undoE_depth hm
          have hi := ih fuel e1 _ _ _ _ hrun
          omega

/-! ## Claim theorems -/

/-- Claim C3, counterexample to the claim as stated: after a completed
top-level match attempt that returns true — the root group for `(a)`
against subject `"a"` — the attempt stacks are not empty: the root and
its child each hold one (live) attempt. -/
theorem c3_counterexample :
    (matchesE 30 c3root ctxA).bind
      (fun r => .ok (r.1, r.2.1.mstack.length, r.2.1.children.map (fun c => c.mstack.length))) =
      .ok (true, 1, [1]) := rfl

/-- Claim C2: the claim fails on the code.  For the Group node
equivalent to `(?P<n>a)?x`, evaluated against subject `"b"` in a
context whose capture table already holds an entry for `n`, `matches`
returns false and restores the cursor and the node's attempt stack —
but the capture table has lost the pre-existing entry for `n`: the
zero-repetition attempt of the named child pushed no capture, yet its
failing `retry` ran `undo`, whose `pop_match` pops unconditionally. -/
theorem c2_failed_matches_corrupts_capture_table :
    tlookup c2ctx.table identN = some [⟨0, 0, none⟩] ∧
    resultView (matchesE 30 c2grp c2ctx) = .ok (false, [], 0, []) :=
  ⟨rfl, rfl⟩

/-- Claim C4: the tree equivalent to `(a+a{2,}a){3,}a` matches the
subject of sixteen `a` characters — the root group backtracks across
the nested repetition boundaries and succeeds, consuming all sixteen
characters in one root attempt. -/
theorem c4_nested_backtracking_succeeds :
    (matchesE 200 c4root ctx16).bind
      (fun r => .ok (r.1, r.2.1.mstack, r.2.2.progress)) =
      .ok (true, [[some ⟨0, 16, none⟩]], 16) := rfl

/-- Claim C5: the claim describes the intended behaviour, but the code
is broken.  `AnyOfOptionsExpression._reevaluate_previous_repetition`
pops the most recent repetition *before* reading its `matching_child`,
so backtracking an alternation holding a single repetition reads the
now-empty attempt and raises IndexError instead of retrying the child
that matched: a `retry` on `a|b` after it matched `"a"` crashes, as
does a whole `matches` on the tree for `(a|b)x` against `"ay"`, which
needs that retry. -/
theorem c5_alternation_backtracking_crashes :
    resultBoolProgress (matchesE 30 c5alt ctxA) = .ok (true, 1) ∧
    andThenRetry 30 (matchesE 30 c5alt ctxA) = .err ∧
    matchesE 60 c5grp ctxAY = .err :=
  ⟨rfl, rfl, rfl⟩

/-- Claim C8: the greedy/non-greedy duality holds up to the last step,
but the final retry crashes instead of returning false.  For `a+` on
`"aaaa"` the first attempt covers `{0,4}`; for `a+?` the first attempt
covers `{0,1}` and three retries extend it to `{0,2}`, `{0,3}`,
`{0,4}`; the fourth retry then evaluates the primitive step at cursor 4
without the end-of-subject guard and raises IndexError
(`current_subject_character` indexes past the subject) instead of
returning false. -/
theorem c8_greedy_nongreedy_duality_with_crash :
    (matchesE 30 nodeAPlus ctxAAAA).bind
      (fun r => .ok (r.1, r.2.1.mstack, r.2.2.progress)) =
      .ok (true, [[some ⟨0, 1, none⟩, some ⟨1, 2, none⟩, some ⟨2, 3, none⟩, some ⟨3, 4, none⟩]], 4) ∧
    resultBoolProgress (matchesE 30 nodeAPlusNG ctxAAAA) = .ok (true, 1) ∧
    resultBoolProgress (andThenRetry 30 (matchesE 30 nodeAPlusNG ctxAAAA)) = .ok (true, 2) ∧
    resultBoolProgress (andThenRetry 30 (andThenRetry 30 (matchesE 30 nodeAPlusNG ctxAAAA))) =
      .ok (true, 3) ∧
    (andThenRetry 30 (andThenRetry 30 (andThenRetry 30 (matchesE 30 nodeAPlusNG ctxAAAA)))).bind
      (fun r => .ok (r.1, r.2.1.mstack, r.2.2.progress)) =
      .ok (true, [[some ⟨0, 1, none⟩, some ⟨1, 2, none⟩, some ⟨2, 3, none⟩, some ⟨3, 4, none⟩]], 4) ∧
    andThenRetry 30 (andThenRetry 30 (andThenRetry 30 (andThenRetry 30
      (matchesE 30 nodeAPlusNG ctxAAAA)))) = .err :=
  ⟨rfl, rfl, rfl, rfl, rfl, rfl⟩

theorem leafRetryFnE_zero (minRep : Nat) (maxRep : Option Nat) (greedy : Bool) (k : EKind)
    (att : List (Option Span)) (ctx : Ctx) :
    leafRetryFnE 0 minRep maxRep greedy k att ctx = .spin := rfl

theorem matchesOnceE_zero (k : EKind) (cs : List Expr) (ctx : Ctx) :
    matchesOnceE 0 k cs ctx = .spin := rfl

theorem retryFnE_zero (e : Expr) (att0 : List (Option Span)) (ctx : Ctx) :
    retryFnE 0 e att0 ctx = .spin := rfl

/-- A leaf primitive step never changes the children or the context. -/
theorem matchesOnceE_leaf_ctx {fuel : Nat} {k : EKind} {cs : List Expr} {ctx : Ctx}
    {o : Option Span} {cs' : List Expr} {ctx' : Ctx} (hk : k.isLeaf = true)
    (h : matchesOnceE fuel k cs ctx = .ok (o, cs', ctx')) : cs' = cs ∧ ctx' = ctx := by
  cases fuel with
  | zero => rw [matchesOnceE_zero] at h; exact absurd h (by simp)
  | succ f =>
    rw [matchesOnceE_leaf f k hk] at h
    cases hs : stepFn k ctx with
    | err => rw [hs] at h; exact absurd h (by simp [Res.bind])
    | spin => rw [hs] at h; exact absurd h (by simp [Res.bind])
    | ok o' =>
      rw [hs] at h
      simp only [Res.bind] at h
      cases h
      exact ⟨rfl, rfl⟩

/-- The generic `Expression.retry` body never changes the capture table
or the subject. -/
theorem leafRetryFnE_ctx {fuel minRep : Nat} {maxRep : Option Nat} {greedy : Bool} {k : EKind}
    {att : List (Option Span)} {ctx : Ctx} {b : Bool} {att' : List (Option Span)} {ctx₁ : Ctx}
    (hk : k.isLeaf = true)
    (h : leafRetryFnE fuel minRep maxRep greedy k att ctx = .ok (b, att', ctx₁)) :
    ctx₁.table = ctx.table ∧ ctx₁.subject = ctx.subject := by
  cases fuel with
  | zero => rw [leafRetryFnE_zero] at h; exact absurd h (by simp)
  | succ f =>
    rw [leafRetryFnE_succ] at h
    by_cases hl : eqLimit att.length (if greedy then some minRep else maxRep)
    · rw [if_pos hl] at h
      cases h
      exact ⟨rfl, rfl⟩
    · rw [if_neg hl] at h
      cases greedy with
      | true =>
        simp only [if_pos rfl] at h
        cases ha : att.getLast? with
        | none => rw [ha] at h; exact absurd h (by simp)
        | some o =>
          rw [ha] at h
          cases o with
          | none => exact absurd h (by simp [espan])
          | some sp =>
            simp only [espan] at h
            cases h
            exact ⟨rfl, rfl⟩
      | false =>
        simp only [Bool.false_eq_true, if_false] at h
        cases hm : matchesOnceE f k [] ctx with
        | err => rw [hm] at h; exact absurd h (by simp)
        | spin => rw [hm] at h; exact absurd h (by simp)
        | ok v =>
          obtain ⟨o, csx, ctxx⟩ := v
          obtain ⟨hcs, hctx⟩ := matchesOnceE_leaf_ctx hk hm
          subst hctx
          rw [hm] at h
          cases o with
          | none => cases h; exact ⟨rfl, rfl⟩
          | some m => cases h; exact ⟨rfl, rfl⟩

/-- The decorated body of `retry` on a leaf node never changes the
capture table, the subject or the children. -/
theorem retryFnE_leaf_ctx {fuel : Nat} {e : Expr} {att0 : List (Option Span)} {ctx : Ctx}
    {b : Bool} {att' : List (Option Span)} {cs' : List Expr} {ctx₁ : Ctx}
    (hk : e.kind.isLeaf = true)
    (h : retryFnE fuel e att0 ctx = .ok (b, att', cs', ctx₁)) :
    ctx₁.table = ctx.table ∧ ctx₁.subject = ctx.subject ∧ cs' = e.children := by
  cases fuel with
  | zero => rw [retryFnE_zero] at h; exact absurd h (by simp)
  | succ f =>
    rw [retryFnE_leaf f e hk] at h
    cases hr : leafRetryFnE f e.minRep e.maxRep e.greedy e.kind att0 ctx with
    | err => rw [hr] at h; exact absurd h (by simp)
    | spin => rw [hr] at h; exact absurd h (by simp)
    | ok v =>
      obtain ⟨b₂, att₂, ctx₂⟩ := v
      rw [hr] at h
      cases h
      obtain ⟨ht, hs⟩ := leafRetryFnE_ctx hk hr
      exact ⟨ht, hs, rfl⟩

theorem tlookup_tset {t : Table} {n : Ident} {l : List Span} (x : List Span)
    (h : tlookup t n = some l) : tlookup (tset t n x) n = some x := by
  induction t with
  | nil => simp [tlookup] at h
  | cons p t ih =>
    obtain ⟨k, v⟩ := p
    by_cases hk : k = n
    · simp [tlookup, tset, hk]
    · simp [tlookup, tset, hk] at h ⊢
      exact ih h

/-- Claim C6 (amended): `wrap_retry` is shared by every expression
variant, so for *every* node with capture names — capturing groups
included — a successful `retry` overwrites (does not push) the
top-of-stack capture entry for each name with the span of the
attempt's new last repetition, applying the override to the capture
table as the retry body returned it; and when the successful retry
leaves the attempt with zero repetitions the capture table is handed
back exactly as the body returned it — the stale entry is *not*
removed (there is no removal step in `wrap_retry`).  For the nodes
running the generic `Expression.retry` (Literal, Range, BackReference)
the body never touches the capture table, so the override and the
no-removal hold relative to the pre-call table. -/
theorem c6_retry_overwrite_no_removal :
    (∀ (fuel : Nat) (e : Expr) (ctx : Ctx) (ns : List Ident) (e' : Expr) (ctx' : Ctx),
      e.names = some ns →
      retryE fuel e ctx = .ok (true, e', ctx') →
      ∃ att0 att cs₁ ctx₁, e.mstack.getLast? = some att0 ∧
        retryFnE (fuel - 1) e att0 ctx = .ok (true, att, cs₁, ctx₁) ∧
        e' = e.setState cs₁ (e.mstack.dropLast ++ [att]) ∧
        (e'.hasCurrentRep = true → ∃ sp, e'.currentRepSpan = .ok sp ∧
          overrideMatch ctx₁.table ns (copySE sp) = .ok ctx'.table ∧
          ctx'.progress = ctx₁.progress ∧ ctx'.subject = ctx₁.subject) ∧
        (e'.hasCurrentRep = false → ctx' = ctx₁))
    ∧ (∀ (fuel : Nat) (e : Expr) (ctx : Ctx) (ns : List Ident) (e' : Expr) (ctx' : Ctx),
      e.kind.isLeaf = true → e.names = some ns →
      retryE fuel e ctx = .ok (true, e', ctx') →
      (e'.hasCurrentRep = true →
        ∃ sp, e'.currentRepSpan = .ok sp ∧
          overrideMatch ctx.table ns (copySE sp) = .ok ctx'.table) ∧
      (e'.hasCurrentRep = false → ctx'.table = ctx.table))
    ∧ (∀ (t : Table) (n : Ident) (v : Span) (l : List Span), tlookup t n = some l →
        overrideMatch1 t n v = .err ∨
        overrideMatch1 t n v = .ok (tset t n (l.dropLast ++ [v])) ∧
          tlookup (tset t n (l.dropLast ++ [v])) n = some (l.dropLast ++ [v])) := by
  refine ⟨?_, ?_, ?_⟩
  · intro fuel e ctx ns e' ctx' hn h
    cases fuel with
    | zero => rw [retryE_zero] at h; exact absurd h (by simp)
    | succ f =>
      rw [retryE_succ] at h
      cases hl : e.mstack.getLast? with
      | none => rw [hl] at h; exact absurd h (by simp)
      | some att0 =>
        rw [hl] at h
        obtain ⟨att, cs₁, ctx₁, hr, htrue, _⟩ := wrapRetry_ok h
        obtain ⟨he, hcap⟩ := htrue rfl
        rw [hn] at hcap
        exact ⟨att0, att, cs₁, ctx₁, rfl, hr, he, hcap.1, hcap.2⟩
  · intro fuel e ctx ns e' ctx' hk hn h
    cases fuel with
    | zero => rw [retryE_zero] at h; exact absurd h (by simp)
    | succ f =>
      rw [retryE_succ] at h
      cases hl : e.mstack.getLast? with
      | none => rw [hl] at h; exact absurd h (by simp)
      | some att0 =>
        rw [hl] at h
        obtain ⟨att, cs₁, ctx₁, hr, htrue, _⟩ := wrapRetry_ok h
        obtain ⟨he, hcap⟩ := htrue rfl
        rw [hn] at hcap
        obtain ⟨ht, _, _⟩ := retryFnE_leaf_ctx hk hr
        constructor
        · intro hrep
          obtain ⟨sp, hsp, hov, _, _⟩ := hcap.1 hrep
          exact ⟨sp, hsp, by rw [← ht]; exact hov⟩
        · intro hnorep
          rw [hcap.2 hnorep, ht]
  · intro t n v l h
    cases l with
    | nil => left; simp [overrideMatch1, h]
    | cons a l' =>
      right
      refine ⟨?_, tlookup_tset _ h⟩
      simp [overrideMatch1, h]

/-- Claim C6, witness for the amended statement: retrying `a{1,2}`
named `n` after it matched `"aa"` twice pops the second repetition and
overwrites the capture entry for `n` with the first repetition's span. -/
theorem c6_retry_overwrite_witness :
    ∃ sp, (Expr.node 1 (some 2) true (some [identN]) (.char 'a') []
        [[some ⟨0, 1, none⟩]]).currentRepSpan = .ok sp ∧
      overrideMatch [(identN, [⟨1, 2, none⟩])] [identN] (copySE sp) =
        .ok [(identN, [⟨0, 1, none⟩])] :=
  (c6_retry_overwrite_no_removal.2.1 10
    (.node 1 (some 2) true (some [identN]) (.char 'a') [] [[some ⟨0, 1, none⟩, some ⟨1, 2, none⟩]])
    ⟨2, "aa".toList, [(identN, [⟨1, 2, none⟩])]⟩ [identN]
    (.node 1 (some 2) true (some [identN]) (.char 'a') [] [[some ⟨0, 1, none⟩]])
    ⟨1, "aa".toList, [(identN, [⟨0, 1, none⟩])]⟩ rfl rfl rfl).1 rfl

/-- Claim C6, counterexample to the claim as stated: a successful retry
of `(?P<n>a)?` on subject `"a"` that leaves the attempt with zero
repetitions does *not* remove the capture entry for `n` — the stale
span `{0,1}` remains in the table. -/
theorem c6_counterexample :
    (andThenRetry 30 (matchesE 30 c6node ctxA)).bind
      (fun r => .ok (r.1, r.2.1.mstack, r.2.2.table)) =
      .ok (true, [[]], [(identN, [⟨0, 1, none⟩])]) := rfl

theorem leafFillE_zero (k : EKind) (upper : Option Nat) (att : List (Option Span)) (ctx : Ctx) :
    leafFillE 0 k upper att ctx = .spin := rfl

/-- The generic `Expression.matches` loop never changes the capture
table or the subject. -/
theorem leafFillE_ctx : ∀ (fuel : Nat) (k : EKind), k.isLeaf = true →
    ∀ (upper : Option Nat) (att : List (Option Span)) (ctx : Ctx)
      (att' : List (Option Span)) (ctx' : Ctx),
    leafFillE fuel k upper att ctx = .ok (att', ctx') →
    ctx'.table = ctx.table ∧ ctx'.subject = ctx.subject := by
  intro fuel
  induction fuel with
  | zero =>
    intro k hk upper att ctx att' ctx' h
    rw [leafFillE_zero] at h
    exact absurd h (by simp)
  | succ f ih =>
    intro k hk upper att ctx att' ctx' h
    rw [leafFillE_succ] at h
    by_cases hg : ctx.progress < ctx.subject.length ∧ ltLimit att.length upper
    · rw [if_pos hg] at h
      cases hm : matchesOnceE f k [] ctx with
      | err => rw [hm] at h; exact absurd h (by simp)
      | spin => rw [hm] at h; exact absurd h (by simp)
      | ok v =>
        obtain ⟨o, csx, ctxx⟩ := v
        obtain ⟨-, hctx⟩ := matchesOnceE_leaf_ctx hk hm
        rw [hm] at h
        cases o with
        | none => cases h; exact ⟨by rw [hctx], by rw [hctx]⟩
        | some m =>
          rw [hctx] at h
          obtain ⟨ht, hs⟩ := ih k hk upper (att ++ [some m]) {ctx with progress := m.stop} att' ctx' h
          exact ⟨ht, hs⟩
    · rw [if_neg hg] at h
      cases h
      exact ⟨rfl, rfl⟩

theorem matchesFnE_leaf_ctx {fuel : Nat} {e : Expr} {ctx : Ctx} {b : Bool}
    {att : List (Option Span)} {cs₁ : List Expr} {ctx₁ : Ctx} (hk : e.kind.isLeaf = true)
    (h : matchesFnE fuel e ctx = .ok (b, att, cs₁, ctx₁)) :
    ctx₁.table = ctx.table ∧ ctx₁.subject = ctx.subject ∧ cs₁ = e.children := by
  cases fuel with
  | zero => rw [matchesFnE_zero] at h; exact absurd h (by simp)
  | succ f =>
    rw [matchesFnE_leaf f e hk] at h
    cases hf : leafFillE f e.kind (if e.greedy then e.maxRep else some e.minRep) [] ctx with
    | err => rw [hf] at h; exact absurd h (by simp)
    | spin => rw [hf] at h; exact absurd h (by simp)
    | ok v =>
      obtain ⟨attx, ctxx⟩ := v
      rw [hf] at h
      cases h
      obtain ⟨ht, hs⟩ := leafFillE_ctx f e.kind hk _ _ _ _ _ hf
      exact ⟨ht, hs, rfl⟩

/-- Claim C7: a node whose `matches` succeeds with zero repetitions
publishes nothing: the `wrap_matches` wrapper pushes a capture only
when a current repetition exists, so the context comes back exactly as
the body produced it (and for the generic leaf nodes the body never
touches the table at all).  In particular the tree for `(?P<foo>a)?b`
matches subject `"b"` with `foo` absent from the resulting table. -/
theorem c7_zero_repetition_no_capture :
    (∀ (fuel : Nat) (e : Expr) (ctx : Ctx) (e' : Expr) (ctx' : Ctx),
      matchesE (fuel + 1) e ctx = .ok (true, e', ctx') → e'.hasCurrentRep = false →
      (∃ att cs₁, matchesFnE fuel e ctx = .ok (true, att, cs₁, ctx') ∧
        e' = e.setState cs₁ (e.mstack ++ [att])) ∧
      (e.kind.isLeaf = true → ctx'.table = ctx.table)) ∧
    (matchesE 30 c7grp ctxB).bind
      (fun r => .ok (r.1, tlookup r.2.2.table identFoo, r.2.2.progress)) =
      .ok (true, none, 1) := by
  constructor
  · intro fuel e ctx e' ctx' h hno
    rw [matchesE_succ] at h
    obtain ⟨att, cs₁, ctx₁, hr, he, hctx⟩ := wrapMatches_ok h
    have hctx' : ctx' = ctx₁ := hctx rfl hno
    subst hctx'
    constructor
    · exact ⟨att, cs₁, hr, by simpa using he⟩
    · intro hk
      exact (matchesFnE_leaf_ctx hk hr).1
  · rfl

/-- Claim C7, witness for the universal part: `(?P<n>a)?` succeeds with
zero repetitions against subject `"b"` and pushes nothing — the
resulting context is the body's own, and the table is untouched. -/
theorem c7_zero_repetition_witness :
    (∃ att cs₁, matchesFnE 4 (.node 0 (some 1) true (some [identN]) (.char 'a') [] []) ctxB =
        .ok (true, att, cs₁, ctxB) ∧
      (Expr.node 0 (some 1) true (some [identN]) (.char 'a') [] [[]]) =
        (Expr.node 0 (some 1) true (some [identN]) (.char 'a') [] []).setState cs₁
          ((Expr.node 0 (some 1) true (some [identN]) (.char 'a') [] []).mstack ++ [att])) ∧
    ((EKind.char 'a').isLeaf = true → ctxB.table = ctxB.table) :=
  c7_zero_repetition_no_capture.1 4
    (.node 0 (some 1) true (some [identN]) (.char 'a') [] []) ctxB
    (.node 0 (some 1) true (some [identN]) (.char 'a') [] [[]]) ctxB rfl rfl

/-- A back-reference whose live capture is the empty string matches a
zero-width span at any cursor position, including the end of the
subject. -/
theorem backrefStep_empty {r : Ident} {ctx : Ctx} (hlive : getMatchString ctx r = .ok [])
    (fuel : Nat) (cs : List Expr) :
    matchesOnceE (fuel + 1) (.backref r) cs ctx =
      .ok (some ⟨ctx.progress, ctx.progress, none⟩, cs, ctx) := by
  simp [matchesOnceE, engine, hlive, asOnce, List.isPrefixOf]

/-- The generic repetition loop on an empty-capture back-reference
collects exactly `L - att.length` zero-width spans (never moving the
cursor) and stops at the repetition limit. -/
theorem zwLoop {r : Ident} : ∀ (j : Nat) (L : Nat) (att : List (Option Span)) (p : Nat)
    (s : List Char) (t : Table),
    getMatchString ⟨p, s, t⟩ r = .ok [] → p < s.length → att.length + j = L →
    leafFillE (j + 1) (.backref r) (some L) att ⟨p, s, t⟩ =
      .ok (att ++ List.replicate j (some ⟨p, p, none⟩), ⟨p, s, t⟩) := by
  intro j
  induction j with
  | zero =>
    intro L att p s t hlive hp hlen
    rw [leafFillE_succ]
    have hlt : ltLimit att.length (some L) = false := by
      simp [ltLimit]
      omega
    rw [if_neg (by simp [hlt])]
    simp
  | succ j ih =>
    intro L att p s t hlive hp hlen
    rw [leafFillE_succ]
    have hlt : ltLimit att.length (some L) = true := by
      simp [ltLimit]
      omega
    rw [if_pos ⟨hp, hlt⟩]
    rw [backrefStep_empty hlive j []]
    show leafFillE (j + 1) (.backref r) (some L) (att ++ [some ⟨p, p, none⟩]) ⟨p, s, t⟩ = _
    rw [ih L (att ++ [some (⟨p, p, none⟩ : Span)]) p s t hlive hp (by simp; omega)]
    simp [List.replicate_succ]

/-- The last entry of a `map some` list of spans. -/
theorem mapsome_getLast : ∀ (l : List Span), l ≠ [] →
    ∃ sp, (l.map some).getLast? = some (some sp) := by
  intro l
  induction l with
  | nil => intro h; exact absurd rfl h
  | cons s t ih =>
    intro _
    cases t with
    | nil => exact ⟨s, rfl⟩
    | cons a u =>
      obtain ⟨sp, hsp⟩ := ih (by simp)
      refine ⟨sp, ?_⟩
      rw [List.map_cons, List.map_cons, List.getLast?_cons_cons]
      rw [List.map_cons] at hsp
      exact hsp

/-- `wrap_matches` on a successful body whose attempt holds only real
spans: the attempt is pushed, and the returned context differs from the
body's at most in its capture table (for a named node with a current
repetition the capture is pushed); an unnamed node gets the body's
context back unchanged. -/
theorem wrapMatches_true_total (e : Expr) (spans : List Span) (cs : List Expr) (ctxm : Ctx) :
    ∃ ctx2, wrapMatches e (.ok (true, spans.map some, cs, ctxm)) =
      .ok (true, e.setState cs (e.mstack ++ [spans.map some]), ctx2) ∧
      ctx2.progress = ctxm.progress ∧ ctx2.subject = ctxm.subject ∧
      (e.names = none → ctx2 = ctxm) := by
  cases hn : e.names with
  | none => exact ⟨ctxm, by simp [wrapMatches, hn], rfl, rfl, fun _ => rfl⟩
  | some ns =>
    by_cases hrep : (e.setState cs (e.mstack ++ [spans.map some])).hasCurrentRep
    · have hne : spans ≠ [] := by
        intro hnil
        subst hnil
        simp [Expr.hasCurrentRep, Expr.mstack_setState, List.getLast?_concat] at hrep
      obtain ⟨sp, hsp⟩ := mapsome_getLast spans hne
      have hcur : (e.setState cs (e.mstack ++ [spans.map some])).currentRepSpan = .ok sp := by
        simp [Expr.currentRepSpan, Expr.mstack_setState, List.getLast?_concat, hsp]
      refine ⟨{ctxm with table := pushMatch ctxm.table ns (copySE sp)}, ?_, rfl, rfl, ?_⟩
      · simp [wrapMatches, hn, hrep, hcur]
      · intro hnone
        exact Option.noConfusion hnone
    · refine ⟨ctxm, ?_, rfl, rfl, fun _ => rfl⟩
      simp [wrapMatches, hn, hrep]

/-- Claim C9 (amended): with a live empty-string capture, the
back-reference's primitive step succeeds with a zero-width span at
*every* cursor position, the end of the subject included; but the
attempt operation (on a node named or not) succeeds without consuming
input only at cursor positions strictly before the end of the subject
(and with a finite repetition limit — the loop fills up to the limit) —
at the end of the subject the repetition loop refuses to run at all, so
the attempt fails despite the primitive step succeeding (see the
counterexample). -/
theorem c9_zero_width_backref :
    (∀ (fuel : Nat) (r : Ident) (cs : List Expr) (ctx : Ctx),
      getMatchString ctx r = .ok [] →
      matchesOnceE (fuel + 1) (.backref r) cs ctx =
        .ok (some ⟨ctx.progress, ctx.progress, none⟩, cs, ctx)) ∧
    (∀ (r : Ident) (minRep L : Nat) (maxRep : Option Nat) (g : Bool)
      (nms : Option (List Ident)) (cs : List Expr)
      (ms : List (List (Option Span))) (p : Nat) (s : List Char) (t : Table),
      getMatchString ⟨p, s, t⟩ r = .ok [] →
      (if g then maxRep else some minRep) = some L → minRep ≤ L → p < s.length →
      ∃ ctx2, matchesE (L + 3) (.node minRep maxRep g nms (.backref r) cs ms) ⟨p, s, t⟩ =
        .ok (true, .node minRep maxRep g nms (.backref r) cs
          (ms ++ [List.replicate L (some ⟨p, p, none⟩)]), ctx2) ∧
        ctx2.progress = p ∧ ctx2.subject = s ∧ (nms = none → ctx2 = ⟨p, s, t⟩)) := by
  constructor
  · intro fuel r cs ctx hlive
    exact backrefStep_empty hlive fuel cs
  · intro r minRep L maxRep g nms cs ms p s t hlive hlim hmin hp
    obtain ⟨c2, heq, hprog, hsubj, hnone⟩ := wrapMatches_true_total
      (Expr.node minRep maxRep g nms (.backref r) cs ms) (List.replicate L ⟨p, p, none⟩)
      cs ⟨p, s, t⟩
    rw [List.map_replicate] at heq
    refine ⟨c2, ?_, hprog, hsubj, fun h0 => hnone h0⟩
    have h1 : matchesE (L + 3) (.node minRep maxRep g nms (.backref r) cs ms) ⟨p, s, t⟩ =
        wrapMatches (.node minRep maxRep g nms (.backref r) cs ms)
          (matchesFnE (L + 2) (.node minRep maxRep g nms (.backref r) cs ms) ⟨p, s, t⟩) :=
      matchesE_succ (L + 2) _ _
    rw [h1, matchesFnE_leaf (L + 1) _ (by simp [Expr.kind, EKind.isLeaf])]
    have hup : (if (Expr.node minRep maxRep g nms (.backref r) cs ms).greedy
        then (Expr.node minRep maxRep g nms (.backref r) cs ms).maxRep
        else some (Expr.node minRep maxRep g nms (.backref r) cs ms).minRep) = some L := by
      simpa [Expr.greedy, Expr.maxRep, Expr.minRep] using hlim
    rw [show (Expr.node minRep maxRep g nms (.backref r) cs ms).kind = .backref r from rfl]
    rw [hup]
    rw [zwLoop L L [] p s t hlive hp (by simp)]
    have hdec : decide (minRep ≤ (List.replicate L (some (⟨p, p, none⟩ : Span))).length)
        = true := by
      simp
      exact hmin
    simp only [Expr.minRep, Expr.children, List.nil_append]
    rw [hdec]
    exact heq

/-- Counterexample to claim C9 as stated: at the end of the subject the
back-reference's primitive step does succeed with a zero-width span, yet
the attempt operation (min 1) returns false — the repetition loop's
end-of-subject guard refuses to run the step at all. -/
theorem c9_counterexample :
    getMatchString ctxEmptyN identN = .ok [] ∧
    matchesOnceE 2 (.backref identN) [] ctxEmptyN =
      .ok (some ⟨0, 0, none⟩, [], ctxEmptyN) ∧
    resultBoolProgress (matchesE 5 nodeBackN ctxEmptyN) = .ok (false, 0) :=
  ⟨rfl, rfl, rfl⟩

/-- Witness for C9: `\n` with a live empty capture for `n`, min 1 max 1,
against subject "a" at cursor 0 — the attempt succeeds, records one
zero-width span and leaves the cursor at 0. -/
theorem c9_zero_width_backref_witness :
    ∃ ctx2, matchesE 4 (.node 1 (some 1) true none (.backref identN) [] [])
        ⟨0, ['a'], [(identN, [⟨0, 0, none⟩])]⟩ =
      .ok (true, .node 1 (some 1) true none (.backref identN) []
        [List.replicate 1 (some ⟨0, 0, none⟩)], ctx2) ∧
      ctx2.progress = 0 ∧ ctx2.subject = ['a'] ∧
      ((none : Option (List Ident)) = none →
        ctx2 = ⟨0, ['a'], [(identN, [⟨0, 0, none⟩])]⟩) :=
  c9_zero_width_backref.2 identN 1 1 (some 1) true none [] [] 0 ['a']
    [(identN, [⟨0, 0, none⟩])] rfl rfl (by decide) (by decide)

/-- A successful `_matches_once` call of a leaf node computes exactly
the primitive step function of its kind. -/
theorem matchesOnceE_ok_step {fuel : Nat} {k : EKind} (hk : k.isLeaf = true)
    {cs : List Expr} {ctx : Ctx} {o : Option Span} {cs2 : List Expr} {ctx2 : Ctx}
    (h : matchesOnceE fuel k cs ctx = .ok (o, cs2, ctx2)) : stepFn k ctx = .ok o := by
  cases fuel with
  | zero => rw [matchesOnceE_zero] at h; exact absurd h (by simp)
  | succ f =>
    rw [matchesOnceE_leaf f k hk] at h
    cases hs : stepFn k ctx with
    | err => rw [hs] at h; exact absurd h (by simp [Res.bind])
    | spin => rw [hs] at h; exact absurd h (by simp [Res.bind])
    | ok o2 =>
      rw [hs] at h
      simp only [Res.bind] at h
      cases h
      rfl

/-- Every successful run of the repetition loop of the generic
`Expression.matches` on a leaf node is a `LoopRun` of its primitive
step: the collected spans are appended to the incoming attempt, and
the loop stops at the end of the subject, at the repetition limit or
on a failing step. -/
theorem leafFillE_loopRun : ∀ (fuel : Nat) (k : EKind), k.isLeaf = true →
    ∀ (upper : Option Nat) (att : List (Option Span)) (ctx : Ctx)
      (att2 : List (Option Span)) (ctx2 : Ctx),
    leafFillE fuel k upper att ctx = .ok (att2, ctx2) →
    ∃ spans : List Span, att2 = att ++ spans.map some ∧
      LoopRun (stepFn k) upper att.length ctx spans ctx2 := by
  intro fuel
  induction fuel with
  | zero =>
    intro k hk upper att ctx att2 ctx2 h
    rw [leafFillE_zero] at h
    exact absurd h (by simp)
  | succ f ih =>
    intro k hk upper att ctx att2 ctx2 h
    rw [leafFillE_succ] at h
    by_cases hg : ctx.progress < ctx.subject.length ∧ ltLimit att.length upper
    · rw [if_pos hg] at h
      cases hs : matchesOnceE f k [] ctx with
      | err => rw [hs] at h; exact absurd h (by simp)
      | spin => rw [hs] at h; exact absurd h (by simp)
      | ok v =>
        obtain ⟨o, csx, ctxx⟩ := v
        obtain ⟨hcs, hctx⟩ := matchesOnceE_leaf_ctx hk hs
        subst hcs
        have hctx2 := hctx.symm
        subst hctx2
        have hstep : stepFn k ctx = .ok o := matchesOnceE_ok_step hk hs
        cases o with
        | none =>
          rw [hs] at h
          cases h
          exact ⟨[], by simp, LoopRun.stopFail att.length ctx hstep⟩
        | some m =>
          rw [hs] at h
          obtain ⟨spans2, ha, hrun⟩ :=
            ih k hk upper (att ++ [some m]) {ctx with progress := m.stop} att2 ctx2 h
          refine ⟨m :: spans2, by simp [ha], ?_⟩
          refine LoopRun.more att.length ctx m spans2 ctx2 hg.1 hg.2 hstep ?_
          simpa using hrun
    · rw [if_neg hg] at h
      cases h
      rcases not_and_or.mp hg with hb | hb
      · exact ⟨[], by simp, LoopRun.stopEnd att.length ctx hb⟩
      · exact ⟨[], by simp, LoopRun.stopLimit att.length ctx (by simpa using hb)⟩

/-- Claim C1 (amended): for every leaf node (Literal, Range,
BackReference — the variants running the generic `Expression.matches`),
named or not, a successful `matches` call runs exactly the repetition
loop of `Expression.matches`: it repeatedly invokes the primitive step
at the current cursor, appends each produced span and advances the
cursor to its end, stopping when the cursor reaches the end of the
subject (a stop condition the original claim omits), when the attempt
holds `repetition_limit` spans (`max_repetitions` if greedy else
`min_repetitions`), or when the step fails; the call returns true iff
at least `min_repetitions` spans were collected, and on success the
new attempt is pushed onto the node's stack and the loop's final
cursor and subject are returned (an unnamed node gets the loop's
context back unchanged; a named one may additionally record its
capture in the table). -/
theorem c1_attempt_loop (fuel : Nat) (e : Expr) (hk : e.kind.isLeaf = true)
    (ctx : Ctx) (b : Bool) (e2 : Expr) (ctx2 : Ctx)
    (h : matchesE fuel e ctx = .ok (b, e2, ctx2)) :
    ∃ (spans : List Span) (ctxm : Ctx),
      LoopRun (stepFn e.kind) (if e.greedy then e.maxRep else some e.minRep) 0 ctx spans ctxm ∧
      b = decide (e.minRep ≤ spans.length) ∧
      (b = true → e2 = e.setState e.children (e.mstack ++ [spans.map some]) ∧
        ctx2.progress = ctxm.progress ∧ ctx2.subject = ctxm.subject ∧
        (e.names = none → ctx2 = ctxm)) := by
  cases fuel with
  | zero => rw [matchesE_zero] at h; exact absurd h (by simp)
  | succ f =>
    rw [matchesE_succ] at h
    cases f with
    | zero =>
      rw [matchesFnE_zero] at h
      exact absurd (show (Res.spin : Res (Bool × Expr × Ctx)) = .ok (b, e2, ctx2) from h)
        (by simp)
    | succ g =>
      rw [matchesFnE_leaf g e hk] at h
      cases hfill : leafFillE g e.kind (if e.greedy then e.maxRep else some e.minRep) [] ctx with
      | err =>
        rw [hfill] at h
        exact absurd (show (Res.err : Res (Bool × Expr × Ctx)) = .ok (b, e2, ctx2) from h)
          (by simp)
      | spin =>
        rw [hfill] at h
        exact absurd (show (Res.spin : Res (Bool × Expr × Ctx)) = .ok (b, e2, ctx2) from h)
          (by simp)
      | ok v =>
        obtain ⟨att, ctxm⟩ := v
        rw [hfill] at h
        obtain ⟨spans, ha, hrun⟩ := leafFillE_loopRun g e.kind hk _ [] ctx att ctxm hfill
        simp only [List.nil_append] at ha
        subst ha
        have h2 : wrapMatches e (.ok (decide (e.minRep ≤ (spans.map some).length),
            spans.map some, e.children, ctxm)) = .ok (b, e2, ctx2) := h
        cases hd : decide (e.minRep ≤ (spans.map some).length) with
        | true =>
          rw [hd] at h2
          obtain ⟨c2, heq, hprog, hsubj, hnone⟩ := wrapMatches_true_total e spans e.children ctxm
          rw [heq] at h2
          cases h2
          refine ⟨spans, ctxm, hrun, by simpa using hd.symm, ?_⟩
          intro hb2
          exact ⟨rfl, hprog, hsubj, hnone⟩
        | false =>
          rw [hd] at h2
          obtain ⟨attx, csx, ctxx, hr, hex, hcx⟩ := wrapMatches_ok h2
          cases hr
          refine ⟨spans, ctxm, hrun, by simpa using hd.symm, ?_⟩
          intro hb2
          exact absurd hb2 (by decide)

/-- Counterexample to claim C1 as stated: against an empty subject with
a live empty capture for `n`, the loop as the claim words it (no
end-of-subject stop) lets the zero-width back-reference `\n` fill its
attempt and the claimed attempt operation returns true, but the actual
`matches` of the node returns false — the real loop also stops when the
cursor reaches the end of the subject. -/
theorem c1_counterexample :
    claimAttemptC1 5 1 (some 1) (stepFn (.backref identN)) ctxEmptyN =
      .ok (true, [⟨0, 0, none⟩], ctxEmptyN) ∧
    resultBoolProgress (matchesE 6 nodeBackN ctxEmptyN) = .ok (false, 0) :=
  ⟨rfl, rfl⟩

/-- Witness for C1: `a+` (greedy, min 1, unbounded) against "aaaa" —
the attempt operation performs a loop run collecting the four
single-character spans and returns true. -/
theorem c1_attempt_loop_witness :
    ∃ (spans : List Span) (ctxm : Ctx),
      LoopRun (stepFn nodeAPlus.kind)
        (if nodeAPlus.greedy then nodeAPlus.maxRep else some nodeAPlus.minRep)
        0 ctxAAAA spans ctxm ∧
      true = decide (nodeAPlus.minRep ≤ spans.length) ∧
      (true = true →
        Expr.node 1 none true none (.char 'a') []
            [[some ⟨0, 1, none⟩, some ⟨1, 2, none⟩, some ⟨2, 3, none⟩, some ⟨3, 4, none⟩]] =
          nodeAPlus.setState nodeAPlus.children (nodeAPlus.mstack ++ [spans.map some]) ∧
        (⟨4, "aaaa".toList, []⟩ : Ctx).progress = ctxm.progress ∧
        (⟨4, "aaaa".toList, []⟩ : Ctx).subject = ctxm.subject ∧
        (nodeAPlus.names = none → (⟨4, "aaaa".toList, []⟩ : Ctx) = ctxm)) :=
  c1_attempt_loop 12 nodeAPlus rfl ctxAAAA true _ _ rfl

/-- Within the subject, the primitive step of a Literal or Range node
either fails or produces exactly the one-character span at the
cursor. -/
theorem stepFn_cr {k : EKind} (hcr : (∃ c, k = .char c) ∨ ∃ lo hi, k = .range lo hi)
    {ctx : Ctx} (hp : ctx.progress < ctx.subject.length) :
    stepFn k ctx = .ok none ∨
      stepFn k ctx = .ok (some ⟨ctx.progress, ctx.progress + 1, none⟩) := by
  have hch : ctx.subject[ctx.progress]? = some (ctx.subject[ctx.progress]) :=
    List.getElem?_eq_getElem hp
  rcases hcr with ⟨c, hk⟩ | ⟨lo, hi, hk⟩
  · subst hk
    by_cases hc : ctx.subject[ctx.progress] = c
    · right; simp [stepFn, matchesOnceE, engine, asOnce, hch, hc, Res.bind]
    · left; simp [stepFn, matchesOnceE, engine, asOnce, hch, hc, Res.bind]
  · subst hk
    by_cases hc : lo ≤ ctx.subject[ctx.progress] ∧ ctx.subject[ctx.progress] ≤ hi
    · right; simp [stepFn, matchesOnceE, engine, asOnce, hch, hc, Res.bind]
    · left; simp [stepFn, matchesOnceE, engine, asOnce, hch, hc, Res.bind]

/-- The repetition loop of `Expression.matches` on a Literal or Range
node returns within `remaining subject + 1` iterations, for every
repetition limit (the unbounded one included): each successful step
advances the cursor by one and the loop stops at the end of the
subject. -/
theorem leafFillE_cr_total {k : EKind}
    (hcr : (∃ c, k = .char c) ∨ ∃ lo hi, k = .range lo hi) :
    ∀ (d : Nat) (upper : Option Nat) (att : List (Option Span)) (ctx : Ctx),
    ctx.subject.length - ctx.progress = d →
    ∃ r, leafFillE (d + 1) k upper att ctx = .ok r := by
  have hk : k.isLeaf = true := by
    rcases hcr with ⟨c, hk0⟩ | ⟨lo, hi, hk0⟩ <;> subst hk0 <;> rfl
  intro d
  induction d with
  | zero =>
    intro upper att ctx hd
    have hng : ¬ ctx.progress < ctx.subject.length := by omega
    rw [leafFillE_succ, if_neg (fun hco => hng hco.1)]
    exact ⟨(att, ctx), rfl⟩
  | succ d ih =>
    intro upper att ctx hd
    by_cases hl : ltLimit att.length upper
    · have hp : ctx.progress < ctx.subject.length := by omega
      rw [leafFillE_succ, if_pos ⟨hp, hl⟩, matchesOnceE_leaf d k hk]
      rcases stepFn_cr hcr hp with hs | hs
      · rw [hs]
        exact ⟨(att, ctx), rfl⟩
      · rw [hs]
        obtain ⟨r, hr⟩ := ih upper (att ++ [some ⟨ctx.progress, ctx.progress + 1, none⟩])
          {ctx with progress := ctx.progress + 1} (by simp; omega)
        refine ⟨r, ?_⟩
        show leafFillE (d + 1) k upper (att ++ [some ⟨ctx.progress, ctx.progress + 1, none⟩])
          {ctx with progress := ctx.progress + 1} = .ok r
        exact hr
    · rw [leafFillE_succ, if_neg (fun hco => hl hco.2)]
      exact ⟨(att, ctx), rfl⟩

/-- `_current_repetition` access never diverges: it yields a span or
raises. -/
theorem currentRepSpan_ne_spin (e : Expr) : e.currentRepSpan ≠ .spin := by
  unfold Expr.currentRepSpan
  cases e.mstack.getLast? with
  | none => simp
  | some att =>
    cases hl : att.getLast? with
    | none => simp [hl]
    | some o => cases o <;> simp [hl]

/-- `wrap_matches` applied to a returning body never diverges. -/
theorem wrapMatches_ne_spin (e : Expr) (v : Bool × List (Option Span) × List Expr × Ctx) :
    wrapMatches e (.ok v) ≠ .spin := by
  obtain ⟨b, att, cs, c⟩ := v
  cases b
  · cases hh : att.head? with
    | none => simp [wrapMatches, hh]
    | some o => cases o <;> simp [wrapMatches, hh, espan]
  · cases hn : e.names with
    | none => simp [wrapMatches, hn]
    | some ns =>
      by_cases hcr : (e.setState cs (e.mstack ++ [att])).hasCurrentRep
      · cases hsp : (e.setState cs (e.mstack ++ [att])).currentRepSpan with
        | err => simp [wrapMatches, hn, hcr, hsp]
        | spin => exact absurd hsp (currentRepSpan_ne_spin _)
        | ok sp => simp [wrapMatches, hn, hcr, hsp]
      · simp [wrapMatches, hn, hcr]

/-- Claim C10: for every Literal (CharacterExpression) or Range
(CharacterRangeExpression) node and every evaluation context, `matches`
terminates even with an unbounded `max_repetitions`: every successful
primitive step returns the span from the cursor to the cursor plus one,
so the cursor strictly increases each iteration, and the repetition
loop stops once the cursor reaches the end of the subject — fuel
`remaining subject + 3` always suffices for the call to return. -/
theorem c10_char_range_terminates (k : EKind)
    (hcr : (∃ c, k = .char c) ∨ ∃ lo hi, k = .range lo hi) :
    (∀ (ctx : Ctx) (sp : Span), stepFn k ctx = .ok (some sp) →
      sp = ⟨ctx.progress, ctx.progress + 1, none⟩) ∧
    (∀ (minRep : Nat) (maxRep : Option Nat) (g : Bool) (nms : Option (List Ident))
      (cs : List Expr) (ms : List (List (Option Span))) (ctx : Ctx),
      matchesE (ctx.subject.length - ctx.progress + 3)
        (.node minRep maxRep g nms k cs ms) ctx ≠ .spin) := by
  have hk : k.isLeaf = true := by
    rcases hcr with ⟨c, hk0⟩ | ⟨lo, hi, hk0⟩ <;> subst hk0 <;> rfl
  constructor
  · intro ctx sp hs
    by_cases hp : ctx.progress < ctx.subject.length
    · rcases stepFn_cr hcr hp with h0 | h0
      · rw [hs] at h0; exact absurd h0 (by simp)
      · rw [hs] at h0
        simp at h0
        exact h0
    · have herr : stepFn k ctx = .err := by
        have hch : ctx.subject[ctx.progress]? = none :=
          List.getElem?_eq_none (by omega)
        rcases hcr with ⟨c, hk0⟩ | ⟨lo, hi, hk0⟩ <;> subst hk0 <;>
          simp [stepFn, matchesOnceE, engine, asOnce, hch, Res.bind]
      rw [hs] at herr
      exact absurd herr (by simp)
  · intro minRep maxRep g nms cs ms ctx
    obtain ⟨r, hr⟩ := leafFillE_cr_total hcr (ctx.subject.length - ctx.progress)
      (if (Expr.node minRep maxRep g nms k cs ms).greedy
        then (Expr.node minRep maxRep g nms k cs ms).maxRep
        else some (Expr.node minRep maxRep g nms k cs ms).minRep) [] ctx rfl
    obtain ⟨att, ctxf⟩ := r
    rw [show ctx.subject.length - ctx.progress + 3 =
      (ctx.subject.length - ctx.progress + 2) + 1 from rfl, matchesE_succ]
    rw [show ctx.subject.length - ctx.progress + 2 =
      (ctx.subject.length - ctx.progress + 1) + 1 from rfl,
      matchesFnE_leaf _ _ (show (Expr.node minRep maxRep g nms k cs ms).kind.isLeaf = true
        from hk)]
    rw [show (Expr.node minRep maxRep g nms k cs ms).kind = k from rfl]
    rw [hr]
    exact wrapMatches_ne_spin _ _

/-- Witness for C10: `a+` against "aaaa" — `matches` with fuel
`subject length + 3` returns. -/
theorem c10_char_range_terminates_witness :
    matchesE ("aaaa".toList.length - 0 + 3) (.node 1 none true none (.char 'a') [] [])
      ⟨0, "aaaa".toList, []⟩ ≠ .spin :=
  (c10_char_range_terminates (.char 'a') (Or.inl ⟨'a', rfl⟩)).2 1 none true none [] []
    ⟨0, "aaaa".toList, []⟩

theorem Expr.children_setState (e : Expr) (cs : List Expr) (ms : List (List (Option Span))) :
    (e.setState cs ms).children = cs := by
  cases e
  rfl

theorem setState_self (e : Expr) : e.setState e.children e.mstack = e := by
  cases e
  rfl

theorem setState_setState (e : Expr) (cs : List Expr) (ms : List (List (Option Span)))
    (cs' : List Expr) (ms' : List (List (Option Span))) :
    (e.setState cs ms).setState cs' ms' = e.setState cs' ms' := by
  cases e
  rfl

/-- The shared `undo` work on a leaf node never touches the children
list (lines 207-213: it rewinds the cursor and pops the capture). -/
theorem undoCoreE_leaf_cs : ∀ {fuel : Nat} {k : EKind}, k.isLeaf = true →
    ∀ {names : Option (List Ident)} {att : List (Option Span)} {cs : List Expr} {ctx : Ctx}
      {cs₂ : List Expr} {ctx₂ : Ctx},
    undoCoreE fuel k names att cs ctx = .ok (cs₂, ctx₂) → cs₂ = cs := by
  intro fuel k hk names att cs ctx cs₂ ctx₂ h
  cases fuel with
  | zero => exact absurd h (by simp [undoCoreE, engine, asCC])
  | succ f =>
    cases k
    case anyOf => exact absurd hk (by simp [EKind.isLeaf])
    case group => exact absurd hk (by simp [EKind.isLeaf])
    all_goals (
      cases hh : att.head? with
      | none =>
        cases names with
        | none =>
          simp [undoCoreE, engine, asCC, hh] at h
          exact h.1.symm
        | some ns =>
          cases hp : popMatch ctx.table ns with
          | err => simp [undoCoreE, engine, asCC, hh, hp] at h
          | spin => simp [undoCoreE, engine, asCC, hh, hp] at h
          | ok t2 =>
            simp [undoCoreE, engine, asCC, hh, hp] at h
            exact h.1.symm
      | some o =>
        cases o with
        | none => simp [undoCoreE, engine, asCC, hh, espan] at h
        | some sp =>
          cases names with
          | none =>
            simp [undoCoreE, engine, asCC, hh, espan] at h
            exact h.1.symm
          | some ns =>
            cases hp : popMatch ctx.table ns with
            | err => simp [undoCoreE, engine, asCC, hh, espan, hp] at h
            | spin => simp [undoCoreE, engine, asCC, hh, espan, hp] at h
            | ok t2 =>
              simp [undoCoreE, engine, asCC, hh, espan, hp] at h
              exact h.1.symm)

/-- State effect of `matches` on a leaf node: returning false leaves
the node exactly as it was; returning true pushes exactly one
attempt. -/
theorem leaf_matchesE_state {fuel : Nat} {e : Expr} (hk : e.kind.isLeaf = true)
    {ctx : Ctx} {b : Bool} {e' : Expr} {ctx' : Ctx}
    (h : matchesE fuel e ctx = .ok (b, e', ctx')) :
    (b = false → e' = e) ∧
    (b = true → ∃ att, e' = e.setState e.children (e.mstack ++ [att])) := by
  cases fuel with
  | zero => rw [matchesE_zero] at h; exact absurd h (by simp)
  | succ f =>
    rw [matchesE_succ] at h
    obtain ⟨att, cs₁, ctx₁, hr, he, _⟩ := wrapMatches_ok h
    obtain ⟨_, _, hcs⟩ := matchesFnE_leaf_ctx hk hr
    subst hcs
    constructor
    · intro hb
      subst hb
      simpa [setState_self] using he
    · intro hb
      subst hb
      exact ⟨att, by simpa using he⟩

/-- State effect of `retry` on a leaf node: the stack was nonempty,
success replaces the top attempt, failure pops it; the children are
untouched. -/
theorem leaf_retryE_state {fuel : Nat} {e : Expr} (hk : e.kind.isLeaf = true)
    {ctx : Ctx} {b : Bool} {e' : Expr} {ctx' : Ctx}
    (h : retryE fuel e ctx = .ok (b, e', ctx')) :
    e.mstack ≠ [] ∧
    (b = true → ∃ att, e' = e.setState e.children (e.mstack.dropLast ++ [att])) ∧
    (b = false → e' = e.setState e.children e.mstack.dropLast) := by
  cases fuel with
  | zero => rw [retryE_zero] at h; exact absurd h (by simp)
  | succ f =>
    rw [retryE_succ] at h
    cases hl : e.mstack.getLast? with
    | none => rw [hl] at h; exact absurd h (by simp)
    | some att0 =>
      rw [hl] at h
      have hne : e.mstack ≠ [] := by
        intro hnil
        rw [hnil] at hl
        exact absurd hl (by simp)
      obtain ⟨att, cs₁, ctx₁, hr, htrue, hfalse⟩ := wrapRetry_ok h
      obtain ⟨_, _, hcs⟩ := retryFnE_leaf_ctx hk hr
      subst hcs
      refine ⟨hne, ?_, ?_⟩
      · intro hb
        subst hb
        obtain ⟨he, _⟩ := htrue rfl
        exact ⟨att, he⟩
      · intro hb
        subst hb
        obtain ⟨cs₂, ctx₂, hu, he, _⟩ := hfalse rfl
        rw [undoCoreE_leaf_cs hk hu] at he
        exact he

theorem isExt_refl (e0 : Expr) : IsExt e0 e0 0 :=
  ⟨[], rfl, by simp [setState_self]⟩

theorem isExt_zero_eq {e0 e : Expr} (h : IsExt e0 e 0) : e = e0 := by
  obtain ⟨extra, hlen, he⟩ := h
  rw [List.length_eq_zero] at hlen
  subst hlen
  rw [he, List.append_nil, setState_self]

/-- A leaf's `matches` transforms an `r`-extension into an
`r`-or-`r+1`-extension according to the returned boolean. -/
theorem IsExt_matchesE {c0 c : Expr} (hk : c0.kind.isLeaf = true) {r : Nat}
    (hx : IsExt c0 c r) {fuel : Nat} {ctx : Ctx} {b : Bool} {c' : Expr} {ctx' : Ctx}
    (h : matchesE fuel c ctx = .ok (b, c', ctx')) :
    IsExt c0 c' (if b then r + 1 else r) := by
  obtain ⟨extra, hlen, hc⟩ := hx
  have hkc : c.kind.isLeaf = true := by rw [hc, Expr.kind_setState]; exact hk
  obtain ⟨hfalse, htrue⟩ := leaf_matchesE_state hkc h
  cases b with
  | false =>
    rw [hfalse rfl]
    exact ⟨extra, hlen, hc⟩
  | true =>
    obtain ⟨att, he⟩ := htrue rfl
    refine ⟨extra ++ [att], by simp [hlen], ?_⟩
    rw [he, hc, setState_setState, Expr.children_setState, Expr.mstack_setState,
      List.append_assoc]

/-- A leaf's `retry` on an `(r+1)`-extension: success keeps the
extension depth, failure pops to an `r`-extension. -/
theorem IsExt_retryE {c0 c : Expr} (hk : c0.kind.isLeaf = true) {r : Nat}
    (hx : IsExt c0 c (r + 1)) {fuel : Nat} {ctx : Ctx} {b : Bool} {c' : Expr} {ctx' : Ctx}
    (h : retryE fuel c ctx = .ok (b, c', ctx')) :
    IsExt c0 c' (if b then r + 1 else r) := by
  obtain ⟨extra, hlen, hc⟩ := hx
  have hkc : c.kind.isLeaf = true := by rw [hc, Expr.kind_setState]; exact hk
  have hxe : extra ≠ [] := by
    intro hnil
    rw [hnil] at hlen
    exact absurd hlen.symm (by simp)
  have hdrop : (c0.mstack ++ extra).dropLast = c0.mstack ++ extra.dropLast :=
    List.dropLast_append_of_ne_nil c0.mstack hxe
  obtain ⟨_, htrue, hfalse⟩ := leaf_retryE_state hkc h
  cases b with
  | false =>
    rw [hfalse rfl, hc, setState_setState, Expr.children_setState, Expr.mstack_setState,
      hdrop]
    exact ⟨extra.dropLast, by simp [hlen], rfl⟩
  | true =>
    obtain ⟨att, he⟩ := htrue rfl
    rw [he, hc, setState_setState, Expr.children_setState, Expr.mstack_setState, hdrop,
      List.append_assoc]
    exact ⟨extra.dropLast ++ [att], by simp [hlen], rfl⟩

theorem moneE_zero (i : Nat) (cs : List Expr) (ctx : Ctx) : moneE 0 i cs ctx = .spin := rfl

theorem mdownE_zero (i : Nat) (cs : List Expr) (ctx : Ctx) : mdownE 0 i cs ctx = .spin := rfl

theorem roneE_zero (i : Nat) (cs : List Expr) (ctx : Ctx) : roneE 0 i cs ctx = .spin := rfl

theorem rupE_zero (i : Nat) (cs : List Expr) (ctx : Ctx) : rupE 0 i cs ctx = .spin := rfl

theorem reevE_zero (k : EKind) (att : List (Option Span)) (cs : List Expr) (ctx : Ctx) :
    reevE 0 k att cs ctx = .spin := rfl

theorem grpReevE_zero (att : List (Option Span)) (cs : List Expr) (ctx : Ctx) :
    grpReevE 0 att cs ctx = .spin := rfl

theorem grpLoopE_zero (att : List (Option Span)) (cs : List Expr) (ctx : Ctx) :
    grpLoopE 0 att cs ctx = .spin := rfl

theorem iterFillE_zero (k : EKind) (upper : Option Nat) (att : List (Option Span))
    (cs : List Expr) (ctx : Ctx) : iterFillE 0 k upper att cs ctx = .spin := rfl

theorem iterLoopE_zero (k : EKind) (minRep : Nat) (upper : Option Nat)
    (att : List (Option Span)) (cs : List Expr) (ctx : Ctx) :
    iterLoopE 0 k minRep upper att cs ctx = .spin := rfl

theorem moneE_succ (fuel i : Nat) (cs : List Expr) (ctx : Ctx) :
    moneE (fuel + 1) i cs ctx =
      match cs[i]? with
      | none => .ok (true, cs, ctx)
      | some child =>
        match matchesE fuel child ctx with
        | .err => .err
        | .spin => .spin
        | .ok (false, c', ctx') => .ok (false, cs.set i c', ctx')
        | .ok (true, c', ctx') => mdownE fuel i (cs.set i c') ctx' := by
  cases hc : cs[i]? with
  | none => simp [moneE, engine, hc, asBCC]
  | some child =>
    cases h : engine fuel (.mtch child ctx) with
    | err => simp [moneE, matchesE, engine, hc, h, asBEC, asBCC]
    | spin => simp [moneE, matchesE, engine, hc, h, asBEC, asBCC]
    | ok out =>
      cases out
      case bec b e2 c =>
        cases b <;> simp [moneE, mdownE, matchesE, engine, hc, h, asBEC, asBCC]
      all_goals simp [moneE, matchesE, engine, hc, h, asBEC, asBCC]

theorem mdownE_succ (fuel i : Nat) (cs : List Expr) (ctx : Ctx) :
    mdownE (fuel + 1) i cs ctx =
      match moneE fuel (i + 1) cs ctx with
      | .err => .err
      | .spin => .spin
      | .ok (true, cs', ctx') => .ok (true, cs', ctx')
      | .ok (false, cs', ctx') =>
        match cs'[i]? with
        | none => .err
        | some child =>
          match retryE fuel child ctx' with
          | .err => .err
          | .spin => .spin
          | .ok (false, c', ctx'') => .ok (false, cs'.set i c', ctx'')
          | .ok (true, c', ctx'') => mdownE fuel i (cs'.set i c') ctx'' := by
  cases h1 : engine fuel (.mone (i + 1) cs ctx) with
  | err => simp [mdownE, moneE, engine, h1, asBCC]
  | spin => simp [mdownE, moneE, engine, h1, asBCC]
  | ok out =>
    cases out
    case bcc b cs' ctx' =>
      cases b with
      | true => simp [mdownE, moneE, engine, h1, asBCC]
      | false =>
        cases hc : cs'[i]? with
        | none => simp [mdownE, moneE, engine, h1, hc, asBCC]
        | some child =>
          cases h2 : engine fuel (.rtry child ctx') with
          | err => simp [mdownE, moneE, retryE, engine, h1, hc, h2, asBEC, asBCC]
          | spin => simp [mdownE, moneE, retryE, engine, h1, hc, h2, asBEC, asBCC]
          | ok out2 =>
            cases out2
            case bec b2 c2 cx =>
              cases b2 <;>
                simp [mdownE, moneE, retryE, engine, h1, hc, h2, asBEC, asBCC]
            all_goals simp [mdownE, moneE, retryE, engine, h1, hc, h2, asBEC, asBCC]
    all_goals simp [mdownE, moneE, engine, h1, asBCC]

theorem matchesOnceE_group (fuel : Nat) (cs : List Expr) (ctx : Ctx) :
    matchesOnceE (fuel + 1) .group cs ctx =
      match moneE fuel 0 cs ctx with
      | .err => .err
      | .spin => .spin
      | .ok (false, cs', ctx') => .ok (none, cs', ctx')
      | .ok (true, cs', ctx') =>
        match groupEnd cs' ctx.progress with
        | .err => .err
        | .spin => .spin
        | .ok en => .ok (some ⟨ctx.progress, en, none⟩, cs', ctx') := by
  cases h1 : engine fuel (.mone 0 cs ctx) with
  | err => simp [matchesOnceE, moneE, engine, h1, asBCC, asOnce]
  | spin => simp [matchesOnceE, moneE, engine, h1, asBCC, asOnce]
  | ok out =>
    cases out
    case bcc b cs' ctx' =>
      cases b with
      | false => simp [matchesOnceE, moneE, engine, h1, asBCC, asOnce]
      | true =>
        cases hg : groupEnd cs' ctx.progress with
        | err => simp [matchesOnceE, moneE, engine, h1, hg, asBCC, asOnce]
        | spin => simp [matchesOnceE, moneE, engine, h1, hg, asBCC, asOnce]
        | ok en => simp [matchesOnceE, moneE, engine, h1, hg, asBCC, asOnce]
    all_goals simp [matchesOnceE, moneE, engine, h1, asBCC, asOnce]

theorem roneE_succ (fuel i : Nat) (cs : List Expr) (ctx : Ctx) :
    roneE (fuel + 1) i cs ctx =
      match cs[i]? with
      | none => .err
      | some child =>
        match retryE fuel child ctx with
        | .err => .err
        | .spin => .spin
        | .ok (true, c', ctx') => .ok (true, cs.set i c', ctx')
        | .ok (false, c', ctx') =>
          if i = 0 then .ok (false, cs.set i c', ctx')
          else rupE fuel i (cs.set i c') ctx' := by
  cases hc : cs[i]? with
  | none => simp [roneE, engine, hc, asBCC]
  | some child =>
    cases h : engine fuel (.rtry child ctx) with
    | err => simp [roneE, retryE, engine, hc, h, asBEC, asBCC]
    | spin => simp [roneE, retryE, engine, hc, h, asBEC, asBCC]
    | ok out =>
      cases out
      case bec b c2 cx =>
        cases b with
        | true => simp [roneE, retryE, engine, hc, h, asBEC, asBCC]
        | false =>
          by_cases hi : i = 0
          · subst hi
            simp [roneE, rupE, retryE, engine, hc, h, asBEC, asBCC]
          · simp [roneE, rupE, retryE, engine, hc, h, hi, asBEC, asBCC]
      all_goals simp [roneE, retryE, engine, hc, h, asBEC, asBCC]

theorem rupE_succ (fuel i : Nat) (cs : List Expr) (ctx : Ctx) :
    rupE (fuel + 1) i cs ctx =
      match roneE fuel (i - 1) cs ctx with
      | .err => .err
      | .spin => .spin
      | .ok (false, cs', ctx') => .ok (false, cs', ctx')
      | .ok (true, cs', ctx') =>
        match cs'[i]? with
        | none => .err
        | some child =>
          match matchesE fuel child ctx' with
          | .err => .err
          | .spin => .spin
          | .ok (true, c', ctx'') => .ok (true, cs'.set i c', ctx'')
          | .ok (false, c', ctx'') => rupE fuel i (cs'.set i c') ctx'' := by
  cases h1 : engine fuel (.rone (i - 1) cs ctx) with
  | err => simp [rupE, roneE, engine, h1, asBCC]
  | spin => simp [rupE, roneE, engine, h1, asBCC]
  | ok out =>
    cases out
    case bcc b cs' ctx' =>
      cases b with
      | false => simp [rupE, roneE, engine, h1, asBCC]
      | true =>
        cases hc : cs'[i]? with
        | none => simp [rupE, roneE, engine, h1, hc, asBCC]
        | some child =>
          cases h2 : engine fuel (.mtch child ctx') with
          | err => simp [rupE, roneE, matchesE, engine, h1, hc, h2, asBEC, asBCC]
          | spin => simp [rupE, roneE, matchesE, engine, h1, hc, h2, asBEC, asBCC]
          | ok out2 =>
            cases out2
            case bec b2 c2 cx =>
              cases b2 <;>
                simp [rupE, roneE, matchesE, engine, h1, hc, h2, asBEC, asBCC]
            all_goals simp [rupE, roneE, matchesE, engine, h1, hc, h2, asBEC, asBCC]
    all_goals simp [rupE, roneE, engine, h1, asBCC]

theorem reevE_group (fuel : Nat) (att : List (Option Span)) (cs : List Expr) (ctx : Ctx) :
    reevE (fuel + 1) .group att cs ctx = grpReevE fuel att cs ctx := rfl

theorem grpReevE_succ (fuel : Nat) (att : List (Option Span)) (cs : List Expr) (ctx : Ctx) :
    grpReevE (fuel + 1) att cs ctx =
      if att.isEmpty then .ok (false, att, cs, ctx)
      else
        match (if cs.isEmpty then (.ok (false, cs, ctx) : Res (Bool × List Expr × Ctx))
               else roneE fuel (cs.length - 1) cs ctx) with
        | .err => .err
        | .spin => .spin
        | .ok (true, cs', ctx') =>
          match groupBounds cs' ctx'.progress ctx'.progress with
          | .err => .err
          | .spin => .spin
          | .ok p => .ok (true, att.dropLast ++ [some ⟨p.1, p.2, none⟩], cs', ctx')
        | .ok (false, cs', ctx') => grpLoopE fuel att.dropLast cs' ctx' := by
  by_cases he : att.isEmpty
  · simp [grpReevE, engine, he, asBAC]
  · by_cases hcse : cs.isEmpty
    · simp [grpReevE, grpLoopE, engine, he, hcse, asBAC]
    · cases h1 : engine fuel (.rone (cs.length - 1) cs ctx) with
      | err => simp [grpReevE, roneE, engine, he, hcse, h1, asBCC, asBAC]
      | spin => simp [grpReevE, roneE, engine, he, hcse, h1, asBCC, asBAC]
      | ok out =>
        cases out with
        | bcc b cs' ctx' =>
          cases b with
          | false => simp [grpReevE, grpLoopE, roneE, engine, he, hcse, h1, asBCC, asBAC]
          | true =>
            cases hg : groupBounds cs' ctx'.progress ctx'.progress with
            | err => simp [grpReevE, roneE, engine, he, hcse, h1, hg, asBCC, asBAC]
            | spin => simp [grpReevE, roneE, engine, he, hcse, h1, hg, asBCC, asBAC]
            | ok p =>
              obtain ⟨s, en⟩ := p
              simp [grpReevE, roneE, engine, he, hcse, h1, hg, asBCC, asBAC]
        | once o cs2 cx => simp [grpReevE, roneE, engine, he, hcse, h1, asBCC, asBAC]
        | bac b2 a2 cs2 cx => simp [grpReevE, roneE, engine, he, hcse, h1, asBCC, asBAC]
        | fill a2 cs2 cx => simp [grpReevE, roneE, engine, he, hcse, h1, asBCC, asBAC]
        | lfl a2 cx => simp [grpReevE, roneE, engine, he, hcse, h1, asBCC, asBAC]
        | lrt b2 a2 cx => simp [grpReevE, roneE, engine, he, hcse, h1, asBCC, asBAC]
        | bec b2 e2 cx => simp [grpReevE, roneE, engine, he, hcse, h1, asBCC, asBAC]
        | ec e2 cx => simp [grpReevE, roneE, engine, he, hcse, h1, asBCC, asBAC]
        | cc cs2 cx => simp [grpReevE, roneE, engine, he, hcse, h1, asBCC, asBAC]

theorem grpLoopE_succ (fuel : Nat) (att : List (Option Span)) (cs : List Expr) (ctx : Ctx) :
    grpLoopE (fuel + 1) att cs ctx =
      match grpReevE fuel att cs ctx with
      | .err => .err
      | .spin => .spin
      | .ok (false, att', cs', ctx') => .ok (false, att', cs', ctx')
      | .ok (true, att', cs', ctx') =>
        match matchesOnceE fuel .group cs' ctx' with
        | .err => .err
        | .spin => .spin
        | .ok (some r, cs'', ctx'') => .ok (true, att' ++ [some r], cs'', ctx'')
        | .ok (none, cs'', ctx'') => grpLoopE fuel att' cs'' ctx'' := by
  cases h1 : engine fuel (.grpReev att cs ctx) with
  | err => simp [grpLoopE, grpReevE, engine, h1, asBAC]
  | spin => simp [grpLoopE, grpReevE, engine, h1, asBAC]
  | ok out =>
    cases out
    case bac b att' cs' ctx' =>
      cases b with
      | false => simp [grpLoopE, grpReevE, engine, h1, asBAC]
      | true =>
        cases h2 : engine fuel (.monce .group cs' ctx') with
        | err => simp [grpLoopE, grpReevE, matchesOnceE, engine, h1, h2, asOnce, asBAC]
        | spin => simp [grpLoopE, grpReevE, matchesOnceE, engine, h1, h2, asOnce, asBAC]
        | ok out2 =>
          cases out2
          case once o cs2 cx =>
            cases o <;>
              simp [grpLoopE, grpReevE, matchesOnceE, engine, h1, h2, asOnce, asBAC]
          all_goals simp [grpLoopE, grpReevE, matchesOnceE, engine, h1, h2, asOnce, asBAC]
    all_goals simp [grpLoopE, grpReevE, engine, h1, asBAC]

theorem iterFillE_succ (fuel : Nat) (k : EKind) (upper : Option Nat)
    (att : List (Option Span)) (cs : List Expr) (ctx : Ctx) :
    iterFillE (fuel + 1) k upper att cs ctx =
      if ltLimit att.length upper then
        match matchesOnceE fuel k cs ctx with
        | .err => .err
        | .spin => .spin
        | .ok (none, cs', ctx') => .ok (att, cs', ctx')
        | .ok (some m, cs', ctx') => iterFillE fuel k upper (att ++ [some m]) cs' ctx'
      else .ok (att, cs, ctx) := by
  by_cases hg : ltLimit att.length upper
  · cases h1 : engine fuel (.monce k cs ctx) with
    | err => simp [iterFillE, matchesOnceE, engine, hg, h1, asOnce, asFill]
    | spin => simp [iterFillE, matchesOnceE, engine, hg, h1, asOnce, asFill]
    | ok out =>
      cases out with
      | once o cs' ctx' =>
        cases o <;> simp [iterFillE, matchesOnceE, engine, hg, h1, asOnce, asFill]
      | bcc b2 cs2 cx => simp [iterFillE, matchesOnceE, engine, hg, h1, asOnce, asFill]
      | bac b2 a2 cs2 cx => simp [iterFillE, matchesOnceE, engine, hg, h1, asOnce, asFill]
      | fill a2 cs2 cx => simp [iterFillE, matchesOnceE, engine, hg, h1, asOnce, asFill]
      | lfl a2 cx => simp [iterFillE, matchesOnceE, engine, hg, h1, asOnce, asFill]
      | lrt b2 a2 cx => simp [iterFillE, matchesOnceE, engine, hg, h1, asOnce, asFill]
      | bec b2 e2 cx => simp [iterFillE, matchesOnceE, engine, hg, h1, asOnce, asFill]
      | ec e2 cx => simp [iterFillE, matchesOnceE, engine, hg, h1, asOnce, asFill]
      | cc cs2 cx => simp [iterFillE, matchesOnceE, engine, hg, h1, asOnce, asFill]
  · simp [iterFillE, engine, hg, asFill]

theorem iterLoopE_succ (fuel : Nat) (k : EKind) (minRep : Nat) (upper : Option Nat)
    (att : List (Option Span)) (cs : List Expr) (ctx : Ctx) :
    iterLoopE (fuel + 1) k minRep upper att cs ctx =
      match iterFillE fuel k upper att cs ctx with
      | .err => .err
      | .spin => .spin
      | .ok (att', cs', ctx') =>
        if minRep ≤ att'.length then .ok (true, att', cs', ctx')
        else
          match reevE fuel k att' cs' ctx' with
          | .err => .err
          | .spin => .spin
          | .ok (false, att'', cs'', ctx'') => .ok (false, att'', cs'', ctx'')
          | .ok (true, att'', cs'', ctx'') =>
            iterLoopE fuel k minRep upper att'' cs'' ctx'' := by
  cases h1 : engine fuel (.ifill k upper att cs ctx) with
  | err => simp [iterLoopE, iterFillE, engine, h1, asFill, asBAC]
  | spin => simp [iterLoopE, iterFillE, engine, h1, asFill, asBAC]
  | ok out =>
    cases out
    case fill att' cs' ctx' =>
      by_cases hm : minRep ≤ att'.length
      · simp [iterLoopE, iterFillE, engine, h1, hm, asFill, asBAC]
      · cases h2 : engine fuel (.reev k att' cs' ctx') with
        | err => simp [iterLoopE, iterFillE, reevE, engine, h1, hm, h2, asFill, asBAC]
        | spin => simp [iterLoopE, iterFillE, reevE, engine, h1, hm, h2, asFill, asBAC]
        | ok out2 =>
          cases out2 with
          | bac b2 att2 cs2 cx =>
            cases b2 <;>
              simp [iterLoopE, iterFillE, reevE, engine, h1, hm, h2, asFill, asBAC]
          | once o2 cs2 cx =>
            simp [iterLoopE, iterFillE, reevE, engine, h1, hm, h2, asFill, asBAC]
          | bcc b2 cs2 cx =>
            simp [iterLoopE, iterFillE, reevE, engine, h1, hm, h2, asFill, asBAC]
          | fill a2 cs2 cx =>
            simp [iterLoopE, iterFillE, reevE, engine, h1, hm, h2, asFill, asBAC]
          | lfl a2 cx =>
            simp [iterLoopE, iterFillE, reevE, engine, h1, hm, h2, asFill, asBAC]
          | lrt b2 a2 cx =>
            simp [iterLoopE, iterFillE, reevE, engine, h1, hm, h2, asFill, asBAC]
          | bec b2 e2 cx =>
            simp [iterLoopE, iterFillE, reevE, engine, h1, hm, h2, asFill, asBAC]
          | ec e2 cx =>
            simp [iterLoopE, iterFillE, reevE, engine, h1, hm, h2, asFill, asBAC]
          | cc cs2 cx =>
            simp [iterLoopE, iterFillE, reevE, engine, h1, hm, h2, asFill, asBAC]
    all_goals simp [iterLoopE, iterFillE, engine, h1, asFill, asBAC]

theorem ite_depth_eq {P Q : Prop} [Decidable P] [Decidable Q] (h : P ↔ Q) (a b : Nat) :
    (if P then a else b) = (if Q then a else b) := by
  by_cases hp : P
  · rw [if_pos hp, if_pos (h.mp hp)]
  · rw [if_neg hp, if_neg (fun hq => hp (h.mpr hq))]

theorem ExtAt_mono {cs0 cs : List Expr} {d d' : Nat → Nat} (h : ExtAt cs0 cs d)
    (hdd : ∀ j, j < cs0.length → d j = d' j) : ExtAt cs0 cs d' := by
  obtain ⟨hlen, hp⟩ := h
  refine ⟨hlen, ?_⟩
  intro j hj
  obtain ⟨c0, c, hc0, hc, hx⟩ := hp j hj
  exact ⟨c0, c, hc0, hc, by rw [← hdd j hj]; exact hx⟩

theorem ExtAt_get {cs0 cs : List Expr} {d : Nat → Nat} (h : ExtAt cs0 cs d)
    {i : Nat} {child : Expr} (hc : cs[i]? = some child) :
    ∃ c0, cs0[i]? = some c0 ∧ IsExt c0 child (d i) := by
  obtain ⟨hlen, hp⟩ := h
  have hi : i < cs0.length := by
    have h2 := (List.getElem?_eq_some.mp hc).1
    omega
  obtain ⟨c0, c, hc0, hc2, hx⟩ := hp i hi
  rw [hc] at hc2
  cases hc2
  exact ⟨c0, hc0, hx⟩

theorem ExtAt_set {cs0 cs : List Expr} {d : Nat → Nat} (h : ExtAt cs0 cs d)
    {i : Nat} {c0i : Expr} (hc0 : cs0[i]? = some c0i) {c' : Expr} {r : Nat}
    (hr : IsExt c0i c' r) :
    ExtAt cs0 (cs.set i c') (fun j => if j = i then r else d j) := by
  obtain ⟨hlen, hp⟩ := h
  refine ⟨by simp [hlen], ?_⟩
  intro j hj
  by_cases hij : j = i
  · subst hij
    have hjlt : j < cs.length := by rw [hlen]; exact hj
    refine ⟨c0i, c', hc0, ?_, by simpa using hr⟩
    simp [List.getElem?_set_self, hjlt]
  · obtain ⟨c0j, cj, hc0j, hcj, hxj⟩ := hp j hj
    refine ⟨c0j, cj, hc0j, ?_, by simpa [hij] using hxj⟩
    rw [List.getElem?_set_ne (fun hh => hij hh.symm)]
    exact hcj

theorem ExtAt_refl (cs0 : List Expr) : ExtAt cs0 cs0 (fun _ => 0) := by
  refine ⟨rfl, ?_⟩
  intro j hj
  have hj2 : cs0[j]? = some cs0[j] := List.getElem?_eq_getElem hj
  exact ⟨cs0[j], cs0[j], hj2, hj2, isExt_refl _⟩

theorem ExtAt_zero_eq {cs0 cs : List Expr} (h : ExtAt cs0 cs (fun _ => 0)) : cs = cs0 := by
  obtain ⟨hlen, hp⟩ := h
  apply List.ext_getElem?
  intro i
  by_cases hi : i < cs0.length
  · obtain ⟨c0, c, hc0, hc, hx⟩ := hp i hi
    rw [hc, hc0, isExt_zero_eq hx]
  · rw [List.getElem?_eq_none (by omega), List.getElem?_eq_none (by omega)]

/-- Depth bookkeeping of the `GroupExpression` matching machinery over
leaf children: every operation of the group's `_matches_once`,
`__retry_one_child` and `_reevaluate_previous_repetition` loops keeps
each child an extension of its original state whose depth follows the
repetition count — in particular, whenever a reevaluation pass returns
false, the attempt is empty and every child is back at its original
depth. -/
theorem groupMachineInv (cs0 : List Expr)
    (hL : ∀ (j : Nat) (c0 : Expr), cs0[j]? = some c0 → c0.kind.isLeaf = true) :
    ∀ fuel : Nat,
    (∀ (i m : Nat) (cs : List Expr) (ctx : Ctx) (b : Bool) (cs' : List Expr) (ctx' : Ctx),
      ExtAt cs0 cs (fun j => if j < i then m + 1 else m) →
      moneE fuel i cs ctx = .ok (b, cs', ctx') →
      ExtAt cs0 cs' (fun j => if b then m + 1 else if j < i then m + 1 else m)) ∧
    (∀ (i m : Nat) (cs : List Expr) (ctx : Ctx) (b : Bool) (cs' : List Expr) (ctx' : Ctx),
      ExtAt cs0 cs (fun j => if j < i + 1 then m + 1 else m) →
      mdownE fuel i cs ctx = .ok (b, cs', ctx') →
      ExtAt cs0 cs' (fun j => if b then m + 1 else if j < i then m + 1 else m)) ∧
    (∀ (m : Nat) (cs : List Expr) (ctx : Ctx) (o : Option Span) (cs' : List Expr) (ctx' : Ctx),
      ExtAt cs0 cs (fun _ => m) →
      matchesOnceE fuel .group cs ctx = .ok (o, cs', ctx') →
      ExtAt cs0 cs' (fun _ => if o.isSome then m + 1 else m)) ∧
    (∀ (i b0 : Nat) (cs : List Expr) (ctx : Ctx) (b : Bool) (cs' : List Expr) (ctx' : Ctx),
      ExtAt cs0 cs (fun j => if j ≤ i then b0 + 1 else b0) →
      roneE fuel i cs ctx = .ok (b, cs', ctx') →
      ExtAt cs0 cs' (fun j => if b then if j ≤ i then b0 + 1 else b0 else b0)) ∧
    (∀ (i b0 : Nat) (cs : List Expr) (ctx : Ctx) (b : Bool) (cs' : List Expr) (ctx' : Ctx),
      1 ≤ i →
      ExtAt cs0 cs (fun j => if j < i then b0 + 1 else b0) →
      rupE fuel i cs ctx = .ok (b, cs', ctx') →
      ExtAt cs0 cs' (fun j => if b then if j ≤ i then b0 + 1 else b0 else b0)) ∧
    (∀ (att : List (Option Span)) (cs : List Expr) (ctx : Ctx) (b : Bool)
      (att' : List (Option Span)) (cs' : List Expr) (ctx' : Ctx),
      ExtAt cs0 cs (fun _ => att.length) →
      reevE fuel .group att cs ctx = .ok (b, att', cs', ctx') →
      ExtAt cs0 cs' (fun _ => att'.length) ∧ (b = false → att' = [])) ∧
    (∀ (att : List (Option Span)) (cs : List Expr) (ctx : Ctx) (b : Bool)
      (att' : List (Option Span)) (cs' : List Expr) (ctx' : Ctx),
      ExtAt cs0 cs (fun _ => att.length) →
      grpReevE fuel att cs ctx = .ok (b, att', cs', ctx') →
      ExtAt cs0 cs' (fun _ => att'.length) ∧ (b = false → att' = [])) ∧
    (∀ (att : List (Option Span)) (cs : List Expr) (ctx : Ctx) (b : Bool)
      (att' : List (Option Span)) (cs' : List Expr) (ctx' : Ctx),
      ExtAt cs0 cs (fun _ => att.length) →
      grpLoopE fuel att cs ctx = .ok (b, att', cs', ctx') →
      ExtAt cs0 cs' (fun _ => att'.length) ∧ (b = false → att' = [])) ∧
    (∀ (upper : Option Nat) (att : List (Option Span)) (cs : List Expr) (ctx : Ctx)
      (att' : List (Option Span)) (cs' : List Expr) (ctx' : Ctx),
      ExtAt cs0 cs (fun _ => att.length) →
      iterFillE fuel .group upper att cs ctx = .ok (att', cs', ctx') →
      ExtAt cs0 cs' (fun _ => att'.length)) ∧
    (∀ (minRep : Nat) (upper : Option Nat) (att : List (Option Span)) (cs : List Expr)
      (ctx : Ctx) (b : Bool) (att' : List (Option Span)) (cs' : List Expr) (ctx' : Ctx),
      ExtAt cs0 cs (fun _ => att.length) →
      iterLoopE fuel .group minRep upper att cs ctx = .ok (b, att', cs', ctx') →
      ExtAt cs0 cs' (fun _ => att'.length) ∧ (b = false → att' = [])) := by
  intro fuel
  induction fuel with
  | zero =>
    refine ⟨?_, ?_, ?_, ?_, ?_, ?_, ?_, ?_, ?_, ?_⟩ <;>
      (intros
       simp_all [moneE_zero, mdownE_zero, matchesOnceE_zero, roneE_zero, rupE_zero,
         reevE_zero, grpReevE_zero, grpLoopE_zero, iterFillE_zero, iterLoopE_zero])
  | succ f ih =>
    obtain ⟨ihMone, ihMdown, ihMonce, ihRone, ihRup, ihReev, ihGrpReev, ihGrpLoop,
      ihFill, ihLoop⟩ := ih
    refine ⟨?_, ?_, ?_, ?_, ?_, ?_, ?_, ?_, ?_, ?_⟩
    · intro i m cs ctx b cs' ctx' hx h
      have hlen := hx.1
      rw [moneE_succ] at h
      cases hc : cs[i]? with
      | none =>
        simp only [hc] at h
        cases h
        have hge : cs0.length ≤ i := by
          by_contra hlt
          push_neg at hlt
          have hlt2 : i < cs.length := by omega
          rw [List.getElem?_eq_getElem hlt2] at hc
          exact absurd hc (by simp)
        refine ExtAt_mono hx ?_
        intro j hj
        rw [if_pos (by omega)]
        simp
      | some child =>
        cases hm : matchesE f child ctx with
        | err => simp [hc, hm] at h
        | spin => simp [hc, hm] at h
        | ok v =>
          obtain ⟨b1, c1, ctx1⟩ := v
          obtain ⟨c0, hc0, hx0⟩ := ExtAt_get hx hc
          have hkc0 : c0.kind.isLeaf = true := hL i c0 hc0
          have hx0' : IsExt c0 child m := by simpa using hx0
          have hstep := IsExt_matchesE hkc0 hx0' hm
          cases b1 with
          | false =>
            simp only [hc, hm] at h
            cases h
            have hset := ExtAt_set hx hc0 (show IsExt c0 c1 m by simpa using hstep)
            refine ExtAt_mono hset ?_
            intro j hj
            by_cases hij : j = i
            · subst hij
              simp
            · simp [hij]
          | true =>
            simp only [hc, hm] at h
            have hset := ExtAt_set hx hc0 (show IsExt c0 c1 (m + 1) by simpa using hstep)
            have hstair : ExtAt cs0 (cs.set i c1) (fun j => if j < i + 1 then m + 1 else m) := by
              refine ExtAt_mono hset ?_
              intro j hj
              by_cases hij : j = i
              · subst hij
                rw [if_pos rfl, if_pos (by omega)]
              · rw [if_neg hij]
                exact ite_depth_eq (by omega) _ _
            exact ihMdown i m _ ctx1 b cs' ctx' hstair h
    · intro i m cs ctx b cs' ctx' hx h
      rw [mdownE_succ] at h
      cases h1 : moneE f (i + 1) cs ctx with
      | err => simp [h1] at h
      | spin => simp [h1] at h
      | ok v =>
        obtain ⟨b1, cs1, ctx1⟩ := v
        have hmone := ihMone (i + 1) m cs ctx b1 cs1 ctx1 hx h1
        cases b1 with
        | true =>
          simp only [h1] at h
          cases h
          exact ExtAt_mono hmone (fun j hj => by simp)
        | false =>
          have hmone' : ExtAt cs0 cs1 (fun j => if j < i + 1 then m + 1 else m) :=
            ExtAt_mono hmone (fun j hj => by simp)
          cases hc : cs1[i]? with
          | none => simp [h1, hc] at h
          | some child =>
            cases h2 : retryE f child ctx1 with
            | err => simp [h1, hc, h2] at h
            | spin => simp [h1, hc, h2] at h
            | ok v2 =>
              obtain ⟨b2, c2, ctx2⟩ := v2
              obtain ⟨c0, hc0, hx0⟩ := ExtAt_get hmone' hc
              have hkc0 := hL i c0 hc0
              have hx0' : IsExt c0 child (m + 1) := by simpa using hx0
              have hstep := IsExt_retryE hkc0 hx0' h2
              cases b2 with
              | false =>
                simp only [h1, hc, h2] at h
                cases h
                have hset := ExtAt_set hmone' hc0 (show IsExt c0 c2 m by simpa using hstep)
                refine ExtAt_mono hset ?_
                intro j hj
                by_cases hij : j = i
                · subst hij
                  simp
                · rw [if_neg hij]
                  simp only [Bool.false_eq_true, if_false]
                  exact ite_depth_eq (by omega) _ _
              | true =>
                simp only [h1, hc, h2] at h
                have hset := ExtAt_set hmone' hc0
                  (show IsExt c0 c2 (m + 1) by simpa using hstep)
                have hstair : ExtAt cs0 (cs1.set i c2)
                    (fun j => if j < i + 1 then m + 1 else m) := by
                  refine ExtAt_mono hset ?_
                  intro j hj
                  by_cases hij : j = i
                  · subst hij
                    rw [if_pos rfl, if_pos (by omega)]
                  · rw [if_neg hij]
                exact ihMdown i m _ ctx2 b cs' ctx' hstair h
    · intro m cs ctx o cs' ctx' hx h
      rw [matchesOnceE_group] at h
      cases h1 : moneE f 0 cs ctx with
      | err => simp [h1] at h
      | spin => simp [h1] at h
      | ok v =>
        obtain ⟨b1, cs1, ctx1⟩ := v
        have hmone := ihMone 0 m cs ctx b1 cs1 ctx1
          (ExtAt_mono hx (fun j hj => by rw [if_neg (by omega)])) h1
        cases b1 with
        | false =>
          simp only [h1] at h
          cases h
          refine ExtAt_mono hmone ?_
          intro j hj
          simp
        | true =>
          cases hg : groupEnd cs1 ctx.progress with
          | err => simp [h1, hg] at h
          | spin => simp [h1, hg] at h
          | ok en =>
            simp only [h1, hg] at h
            cases h
            refine ExtAt_mono hmone ?_
            intro j hj
            simp
    · intro i b0 cs ctx b cs' ctx' hx h
      rw [roneE_succ] at h
      cases hc : cs[i]? with
      | none => simp [hc] at h
      | some child =>
        cases h2 : retryE f child ctx with
        | err => simp [hc, h2] at h
        | spin => simp [hc, h2] at h
        | ok v =>
          obtain ⟨b2, c2, ctx2⟩ := v
          obtain ⟨c0, hc0, hx0⟩ := ExtAt_get hx hc
          have hkc0 := hL i c0 hc0
          have hx0' : IsExt c0 child (b0 + 1) := by simpa using hx0
          have hstep := IsExt_retryE hkc0 hx0' h2
          cases b2 with
          | true =>
            simp only [hc, h2] at h
            cases h
            have hset := ExtAt_set hx hc0 (show IsExt c0 c2 (b0 + 1) by simpa using hstep)
            refine ExtAt_mono hset ?_
            intro j hj
            by_cases hij : j = i
            · subst hij
              simp
            · simp [hij]
          | false =>
            by_cases hi0 : i = 0
            · subst hi0
              simp only [hc, h2, if_pos] at h
              cases h
              have hset := ExtAt_set hx hc0 (show IsExt c0 c2 b0 by simpa using hstep)
              refine ExtAt_mono hset ?_
              intro j hj
              by_cases hij : j = 0
              · subst hij
                simp
              · simp [hij]
            · simp only [hc, h2, if_neg hi0] at h
              have hset := ExtAt_set hx hc0 (show IsExt c0 c2 b0 by simpa using hstep)
              have hstair : ExtAt cs0 (cs.set i c2)
                  (fun j => if j < i then b0 + 1 else b0) := by
                refine ExtAt_mono hset ?_
                intro j hj
                by_cases hij : j = i
                · subst hij
                  rw [if_pos rfl, if_neg (by omega)]
                · rw [if_neg hij]
                  exact ite_depth_eq (by omega) _ _
              exact ihRup i b0 _ ctx2 b cs' ctx' (by omega) hstair h
    · intro i b0 cs ctx b cs' ctx' hi hx h
      rw [rupE_succ] at h
      cases h1 : roneE f (i - 1) cs ctx with
      | err => simp [h1] at h
      | spin => simp [h1] at h
      | ok v =>
        obtain ⟨b1, cs1, ctx1⟩ := v
        have hrone := ihRone (i - 1) b0 cs ctx b1 cs1 ctx1
          (ExtAt_mono hx (fun j hj => ite_depth_eq (by omega) _ _)) h1
        cases b1 with
        | false =>
          simp only [h1] at h
          cases h
          refine ExtAt_mono hrone ?_
          intro j hj
          simp
        | true =>
          have hrone' : ExtAt cs0 cs1 (fun j => if j ≤ i - 1 then b0 + 1 else b0) :=
            ExtAt_mono hrone (fun j hj => by simp)
          cases hc : cs1[i]? with
          | none => simp [h1, hc] at h
          | some child =>
            cases h2 : matchesE f child ctx1 with
            | err => simp [h1, hc, h2] at h
            | spin => simp [h1, hc, h2] at h
            | ok v2 =>
              obtain ⟨b2, c2, ctx2⟩ := v2
              obtain ⟨c0, hc0, hx0⟩ := ExtAt_get hrone' hc
              have hkc0 := hL i c0 hc0
              have hx0' : IsExt c0 child b0 := by
                have hii : ¬ i ≤ i - 1 := by omega
                simpa [hii] using hx0
              have hstep := IsExt_matchesE hkc0 hx0' h2
              cases b2 with
              | true =>
                simp only [h1, hc, h2] at h
                cases h
                have hset := ExtAt_set hrone' hc0
                  (show IsExt c0 c2 (b0 + 1) by simpa using hstep)
                refine ExtAt_mono hset ?_
                intro j hj
                by_cases hij : j = i
                · subst hij
                  simp
                · rw [if_neg hij]
                  exact (ite_depth_eq (show j ≤ i - 1 ↔ j ≤ i by omega) (b0 + 1) b0).trans
                    (by simp)
              | false =>
                simp only [h1, hc, h2] at h
                have hset := ExtAt_set hrone' hc0
                  (show IsExt c0 c2 b0 by simpa using hstep)
                have hstair : ExtAt cs0 (cs1.set i c2)
                    (fun j => if j < i then b0 + 1 else b0) := by
                  refine ExtAt_mono hset ?_
                  intro j hj
                  by_cases hij : j = i
                  · subst hij
                    rw [if_pos rfl, if_neg (by omega)]
                  · rw [if_neg hij]
                    exact ite_depth_eq (by omega) _ _
                exact ihRup i b0 _ ctx2 b cs' ctx' hi hstair h
    · intro att cs ctx b att' cs' ctx' hx h
      rw [reevE_group] at h
      exact ihGrpReev att cs ctx b att' cs' ctx' hx h
    · intro att cs ctx b att' cs' ctx' hx h
      have hlen := hx.1
      rw [grpReevE_succ] at h
      by_cases he : att.isEmpty
      · rw [if_pos he] at h
        cases h
        exact ⟨hx, fun _ => List.isEmpty_iff.mp he⟩
      · rw [if_neg he] at h
        have hane : att ≠ [] := by
          intro hnil
          rw [hnil] at he
          exact he rfl
        have hm1 : 0 < att.length := List.length_pos.mpr hane
        by_cases hcse : cs.isEmpty
        · rw [if_pos hcse] at h
          have h2 : grpLoopE f att.dropLast cs ctx = .ok (b, att', cs', ctx') := h
          have h0 : cs0.length = 0 := by
            have hc0 : cs.length = 0 := by simpa [List.isEmpty_iff] using hcse
            omega
          have hx2 : ExtAt cs0 cs (fun _ => att.dropLast.length) := by
            refine ⟨hx.1, ?_⟩
            intro j hj
            exact absurd hj (by omega)
          exact ihGrpLoop att.dropLast cs ctx b att' cs' ctx' hx2 h2
        · rw [if_neg hcse] at h
          cases h1 : roneE f (cs.length - 1) cs ctx with
          | err => simp [h1] at h
          | spin => simp [h1] at h
          | ok v =>
            obtain ⟨b1, cs1, ctx1⟩ := v
            have hcne : cs ≠ [] := by
              intro hnil
              rw [hnil] at hcse
              exact hcse rfl
            have hclen : 0 < cs.length := List.length_pos.mpr hcne
            have hentry : ExtAt cs0 cs
                (fun j => if j ≤ cs.length - 1 then att.length - 1 + 1 else att.length - 1) := by
              refine ExtAt_mono hx ?_
              intro j hj
              rw [if_pos (by omega)]
              omega
            have hrone := ihRone (cs.length - 1) (att.length - 1) cs ctx b1 cs1 ctx1 hentry h1
            cases b1 with
            | true =>
              cases hg : groupBounds cs1 ctx1.progress ctx1.progress with
              | err => simp [h1, hg] at h
              | spin => simp [h1, hg] at h
              | ok p =>
                obtain ⟨s, en⟩ := p
                simp only [h1, hg] at h
                cases h
                refine ⟨?_, fun hb => absurd hb (by decide)⟩
                refine ExtAt_mono hrone ?_
                intro j hj
                rw [if_pos rfl, if_pos (by omega)]
                simp [List.length_append]
            | false =>
              simp only [h1] at h
              have hx2 : ExtAt cs0 cs1 (fun _ => att.dropLast.length) := by
                refine ExtAt_mono hrone ?_
                intro j hj
                rw [if_neg (by simp), List.length_dropLast]
              exact ihGrpLoop att.dropLast cs1 ctx1 b att' cs' ctx' hx2 h
    · intro att cs ctx b att' cs' ctx' hx h
      rw [grpLoopE_succ] at h
      cases h1 : grpReevE f att cs ctx with
      | err => simp [h1] at h
      | spin => simp [h1] at h
      | ok v =>
        obtain ⟨b1, att1, cs1, ctx1⟩ := v
        obtain ⟨hx1, hb1⟩ := ihGrpReev att cs ctx b1 att1 cs1 ctx1 hx h1
        cases b1 with
        | false =>
          simp only [h1] at h
          cases h
          exact ⟨hx1, fun _ => hb1 rfl⟩
        | true =>
          cases h2 : matchesOnceE f .group cs1 ctx1 with
          | err => simp [h1, h2] at h
          | spin => simp [h1, h2] at h
          | ok v2 =>
            obtain ⟨o, cs2, ctx2⟩ := v2
            have hmon := ihMonce att1.length cs1 ctx1 o cs2 ctx2 hx1 h2
            cases o with
            | some r =>
              simp only [h1, h2] at h
              cases h
              refine ⟨?_, fun hb => absurd hb (by decide)⟩
              refine ExtAt_mono hmon ?_
              intro j hj
              simp [List.length_append]
            | none =>
              simp only [h1, h2] at h
              have hx2 : ExtAt cs0 cs2 (fun _ => att1.length) :=
                ExtAt_mono hmon (fun j hj => by simp)
              exact ihGrpLoop att1 cs2 ctx2 b att' cs' ctx' hx2 h
    · intro upper att cs ctx att' cs' ctx' hx h
      rw [iterFillE_succ] at h
      by_cases hg : ltLimit att.length upper
      · rw [if_pos hg] at h
        cases h2 : matchesOnceE f .group cs ctx with
        | err => simp [h2] at h
        | spin => simp [h2] at h
        | ok v =>
          obtain ⟨o, cs2, ctx2⟩ := v
          have hmon := ihMonce att.length cs ctx o cs2 ctx2 hx h2
          cases o with
          | none =>
            simp only [h2] at h
            cases h
            exact ExtAt_mono hmon (fun j hj => by simp)
          | some m2 =>
            simp only [h2] at h
            have hx2 : ExtAt cs0 cs2 (fun _ => (att ++ [some m2]).length) :=
              ExtAt_mono hmon (fun j hj => by simp [List.length_append])
            exact ihFill upper (att ++ [some m2]) cs2 ctx2 att' cs' ctx' hx2 h
      · rw [if_neg hg] at h
        cases h
        exact hx
    · intro minRep upper att cs ctx b att' cs' ctx' hx h
      rw [iterLoopE_succ] at h
      cases h1 : iterFillE f .group upper att cs ctx with
      | err => simp [h1] at h
      | spin => simp [h1] at h
      | ok v =>
        obtain ⟨att1, cs1, ctx1⟩ := v
        have hfill := ihFill upper att cs ctx att1 cs1 ctx1 hx h1
        by_cases hm : minRep ≤ att1.length
        · simp only [h1, if_pos hm] at h
          cases h
          exact ⟨hfill, fun hb => absurd hb (by decide)⟩
        · cases h2 : reevE f .group att1 cs1 ctx1 with
          | err => simp [h1, if_neg hm, h2] at h
          | spin => simp [h1, if_neg hm, h2] at h
          | ok v2 =>
            obtain ⟨b2, att2, cs2, ctx2⟩ := v2
            obtain ⟨hx2, hb2⟩ := ihReev att1 cs1 ctx1 b2 att2 cs2 ctx2 hfill h2
            cases b2 with
            | false =>
              simp only [h1, if_neg hm, h2] at h
              cases h
              exact ⟨hx2, fun _ => hb2 rfl⟩
            | true =>
              simp only [h1, if_neg hm, h2] at h
              exact ihLoop minRep upper att2 cs2 ctx2 b att' cs' ctx' hx2 h

/-- `matches` body dispatch for a Group node: the iterator loop of
`AbstractIteratorExpression.matches` (lines 308-325). -/
theorem matchesFnE_group (fuel : Nat) (e : Expr) (hke : e.kind = .group) (ctx : Ctx) :
    matchesFnE (fuel + 1) e ctx =
      iterLoopE fuel .group e.minRep (if e.greedy then e.maxRep else some e.minRep)
        [] e.children ctx := by
  simp [matchesFnE, iterLoopE, engine, hke]

/-- A Group node over leaf children whose `matches` returns false is
handed back exactly as it was: the iterator loop unwinds every
collected repetition, the reevaluation pass retries and undoes the
children rep by rep down to the empty attempt, and the wrapper pops
the node's own attempt. -/
theorem group_matchesE_restore {fuel : Nat} {e : Expr} (hk : e.kind = .group)
    (hL : ∀ (j : Nat) (c0 : Expr), e.children[j]? = some c0 → c0.kind.isLeaf = true)
    {ctx : Ctx} {e' : Expr} {ctx' : Ctx}
    (h : matchesE fuel e ctx = .ok (false, e', ctx')) : e' = e := by
  cases fuel with
  | zero => rw [matchesE_zero] at h; exact absurd h (by simp)
  | succ f =>
    rw [matchesE_succ] at h
    obtain ⟨att, cs₁, ctx₁, hr, he, _⟩ := wrapMatches_ok h
    cases f with
    | zero => rw [matchesFnE_zero] at hr; exact absurd hr (by simp)
    | succ g =>
      rw [matchesFnE_group g e hk] at hr
      obtain ⟨hext, hatt⟩ := (groupMachineInv e.children hL g).2.2.2.2.2.2.2.2.2
        e.minRep (if e.greedy then e.maxRep else some e.minRep) [] e.children ctx
        false att cs₁ ctx₁ (ExtAt_refl e.children) hr
      have h0 : att = [] := hatt rfl
      subst h0
      have hcs : cs₁ = e.children := ExtAt_zero_eq hext
      rw [he, hcs]
      simp [setState_self]

/-- Claim C3 (amended): the attempt stack of every Expression node is
balanced per operation — a `matches` call returning true pushes exactly
one attempt and returning false pushes none; a `retry` returning true
preserves the stack depth while returning false pops one attempt;
`undo` pops one attempt — hence over any completed sequence of
operations the depth equals the starting depth plus the successful
`matches` calls not yet balanced by a terminal `retry` failure or an
`undo`.  After a top-level match attempt that exhausts to false the
tree is restored exactly, so on a fresh tree every attempt stack is
empty again: proved for every leaf node, for every Group node over
leaf children, and computed for the nested tree `(ab){2}` against
`"ab"` and the deep tree `(a+a{2,}a){3,}a` against `"aaa"`.  (The
claim's further assertion that the stacks are also empty after a
*successful* top-level match is false, see the counterexample: the
tree keeps its live attempts.) -/
theorem c3_balance :
    (∀ (fuel : Nat) (e : Expr) (ctx : Ctx) (b : Bool) (e' : Expr) (ctx' : Ctx),
      matchesE fuel e ctx = .ok (b, e', ctx') →
      e'.mstack.length = e.mstack.length + (if b then 1 else 0))
    ∧ (∀ (fuel : Nat) (e : Expr) (ctx : Ctx) (b : Bool) (e' : Expr) (ctx' : Ctx),
      retryE fuel e ctx = .ok (b, e', ctx') →
      e'.mstack.length + (if b then 0 else 1) = e.mstack.length)
    ∧ (∀ (fuel : Nat) (e : Expr) (ctx : Ctx) (e' : Expr) (ctx' : Ctx),
      undoE fuel e ctx = .ok (e', ctx') → e'.mstack.length + 1 = e.mstack.length)
    ∧ (∀ (ops : List OpKind) (fuel : Nat) (e ef : Expr) (sm fr ud : Nat),
      runOps fuel e ops = .ok (ef, sm, fr, ud) →
      ef.mstack.length + fr + ud = e.mstack.length + sm)
    ∧ (∀ (fuel : Nat) (e : Expr) (ctx : Ctx) (e' : Expr) (ctx' : Ctx),
      e.kind.isLeaf = true →
      matchesE fuel e ctx = .ok (false, e', ctx') → e' = e)
    ∧ (∀ (fuel : Nat) (e : Expr) (ctx : Ctx) (e' : Expr) (ctx' : Ctx),
      e.kind = .group →
      (∀ (j : Nat) (c0 : Expr), e.children[j]? = some c0 → c0.kind.isLeaf = true) →
      matchesE fuel e ctx = .ok (false, e', ctx') → e' = e)
    ∧ matchesE 60 c3ab ctxAB = .ok (false, c3ab, ctxAB)
    ∧ matchesE 200 c4root ⟨0, "aaa".toList, []⟩ =
        .ok (false, c4root, ⟨0, "aaa".toList, []⟩) :=
  ⟨fun _ _ _ _ _ _ h => matchesE_depth h,
   fun _ _ _ _ _ _ h => retryE_depth h,
   fun _ _ _ _ _ h => undoE_depth h,
   runOps_balance,
   fun _ _ _ _ _ hk h => (leaf_matchesE_state hk h).1 rfl,
   fun _ _ _ _ _ hk hL h => group_matchesE_restore hk hL h,
   rfl,
   rfl⟩

/-- Claim C3, witness for the amended balance statement: one successful
`matches` call on a fresh literal node leaves exactly one attempt on
its stack, balancing the single success. -/
theorem c3_balance_witness :
    (.node 1 (some 1) true none (.char 'a') [] [[some ⟨0, 1, none⟩]] : Expr).mstack.length + 0 + 0 =
      (.node 1 (some 1) true none (.char 'a') [] [] : Expr).mstack.length + 1 :=
  c3_balance.2.2.2.1 [.mtch ctxA] 30 (.node 1 (some 1) true none (.char 'a') [] [])
    (.node 1 (some 1) true none (.char 'a') [] [[some ⟨0, 1, none⟩]]) 1 0 0 rfl
